import Mathlib

set_option autoImplicit false

namespace UmiTokenService

/-! Shallow embedding of `src/services/tokenService.ts` (class `TokenService`).

The Redis store is modelled as explicit state: four association-list key
spaces (one per key prefix used by the service), an operation trace, and a
failure budget (`failAfter`) that makes the n-th store operation fail, to
model store unavailability.  Signed JWTs are modelled as structured values
carrying their payload, the signing secret, and the `iat`/`exp` timestamps
(a JWT string is determined by exactly these).  Each service method becomes
a function in the monad `M` = state + exceptions, where a thrown JS error
is an `Except.error`. -/

/-! ## Association-list helpers (the per-key get/set/del of Redis) -/

def alGet {κ ν : Type} [DecidableEq κ] (k : κ) : List (κ × ν) → Option ν
  | [] => none
  | (k', v) :: rest => if k' = k then some v else alGet k rest

def alSet {κ ν : Type} [DecidableEq κ] (k : κ) (v : ν) : List (κ × ν) → List (κ × ν)
  | [] => [(k, v)]
  | (k', v') :: rest => if k' = k then (k, v) :: rest else (k', v') :: alSet k v rest

def alDel {κ ν : Type} [DecidableEq κ] (k : κ) : List (κ × ν) → List (κ × ν)
  | [] => []
  | (k', v') :: rest => if k' = k then alDel k rest else (k', v') :: alDel k rest

/-! ## Data model -/

/-- The JWT payload shape used by the service (`TokenPayload`, plus the
optional `type` discriminator added on refresh tokens). -/
structure TokenPayload where
  id : String
  email : String
  role : String
  tokenFamily : Option String
  type : Option String
deriving DecidableEq

/-- A signed JWT: payload claims plus signing secret and timestamps.  Two
JWT strings are equal iff all of these coincide, so this structure stands
for the literal token string. -/
structure Token where
  id : String
  email : String
  role : String
  tokenFamily : Option String
  type : Option String
  secret : String
  iat : Nat
  exp : Nat
deriving DecidableEq

/-- `RefreshTokenData` stored (JSON-serialised) under `refresh_token:<token>`. -/
structure RefreshTokenData where
  userId : String
  tokenFamily : String
  createdAt : Nat
  lastUsedAt : Nat
  userAgent : Option String
  ipAddress : Option String
deriving DecidableEq

/-- Session info returned by `getUserSessions`. -/
structure SessionInfo where
  tokenFamily : String
  createdAt : Nat
  lastUsedAt : Nat
  userAgent : Option String
  ipAddress : Option String
deriving DecidableEq

structure UserInfo where
  id : String
  email : String
  role : String
deriving DecidableEq

/-- JS exceptions thrown inside the service: the two `jsonwebtoken`
verification errors, the two `new Error(...)` throws of
`refreshTokenRotation`, and a store (Redis) failure. -/
inductive Err
  | tokenExpiredError
  | jsonWebTokenError
  | invalidTokenType
  | securityBreach
  | storeUnavailable
deriving DecidableEq

/-- The spec taxonomy maps both a bad signature (`jsonWebTokenError`) and a
wrong `type` discriminator (`invalidTokenType`) to `InvalidToken`. -/
def Err.isInvalidToken : Err → Bool
  | .jsonWebTokenError => true
  | .invalidTokenType => true
  | _ => false

/-! ## Credential signer (jsonwebtoken) -/

/-- `config.jwt.secret` (access-token secret). -/
def accessSecret : String := "your-secret-key"

/-- `config.jwt.refreshSecret`. -/
def refreshSecret : String := "your-refresh-secret"

/-- `config.jwt.expiresIn` (default `24h`), in seconds. -/
def accessExpiresIn : Nat := 24 * 60 * 60

/-- `config.jwt.refreshExpiresIn` (default `7d`), in seconds. -/
def refreshExpiresIn : Nat := 7 * 24 * 60 * 60

/-- The hardcoded `7 * 24 * 60 * 60` store TTL used by the service. -/
def sevenDays : Nat := 7 * 24 * 60 * 60

/-- `jwt.sign(payload, secret, { expiresIn })` at wall-clock `nowMs`. -/
def jwtSign (p : TokenPayload) (secret : String) (expiresIn : Nat) (nowMs : Nat) : Token :=
  { id := p.id, email := p.email, role := p.role, tokenFamily := p.tokenFamily,
    type := p.type, secret := secret, iat := nowMs / 1000, exp := nowMs / 1000 + expiresIn }

/-- `jwt.verify(token, secret)` at wall-clock `nowMs`: signature is checked
first (mismatch gives `JsonWebTokenError`), then expiry (`TokenExpiredError`
when `floor(nowMs/1000) >= exp`). -/
def jwtVerify (tok : Token) (secret : String) (nowMs : Nat) : Except Err Token :=
  if tok.secret ≠ secret then Except.error Err.jsonWebTokenError
  else if tok.exp ≤ nowMs / 1000 then Except.error Err.tokenExpiredError
  else Except.ok tok

/-! ## Store state and the service monad -/

/-- Keys of the four key spaces (`refresh_token:`, `token_family:`,
`user_sessions:`, `blacklist:` prefixes). -/
inductive StoreKey
  | refreshTok (t : Token)
  | tokenFam (f : String)
  | userSess (u : String)
  | blacklistTok (t : Token)
deriving DecidableEq

inductive StoreEvent
  | get (k : StoreKey)
  | setEx (k : StoreKey) (ttl : Nat)
  | del (k : StoreKey)
  | sAdd (k : StoreKey) (v : String)
  | sRem (k : StoreKey) (v : String)
  | sMembers (k : StoreKey)
  | keysScan
  | existsKey (k : StoreKey)
deriving DecidableEq

def StoreEvent.isWrite : StoreEvent → Bool
  | .setEx _ _ => true
  | .del _ => true
  | .sAdd _ _ => true
  | .sRem _ _ => true
  | _ => false

/-- Number of store writes recorded in a trace. -/
def countWrites (l : List StoreEvent) : Nat := (l.filter StoreEvent.isWrite).length

/-- The Redis key/value contents relevant to the service.
`refreshTokens` holds the stored `RefreshTokenData` with its TTL,
`tokenFamilies` maps a family key to the current refresh token with its TTL,
`userSessions` holds the per-user family sets, `blacklist` the `'1'`
markers with their TTL. -/
@[ext]
structure RedisData where
  refreshTokens : List (Token × RefreshTokenData × Nat)
  tokenFamilies : List (String × Token × Nat)
  userSessions : List (String × List String)
  blacklist : List (Token × Nat)
deriving DecidableEq

/-- Full execution state: store data, wall clock (ms), the uuid source,
a failure budget (`failAfter = some n` makes the store operation issued
after `n` more successful ones fail), a flag recording whether some store
operation has failed, and the trace of attempted store operations. -/
structure RedisState where
  data : RedisData
  nowMs : Nat
  uuidCounter : Nat
  failAfter : Option Nat
  storeFailed : Bool
  trace : List StoreEvent
deriving DecidableEq

def M (α : Type) : Type := RedisState → Except Err α × RedisState

instance : Monad M where
  pure a := fun s => (Except.ok a, s)
  bind m f := fun s =>
    match m s with
    | (Except.ok a, s₁) => f a s₁
    | (Except.error e, s₁) => (Except.error e, s₁)

def M.run {α : Type} (m : M α) (s : RedisState) : Except Err α × RedisState := m s

def M.throwE {α : Type} (e : Err) : M α := fun s => (Except.error e, s)

/-- JS `try { m } catch (e) { h e }`. -/
def M.tryCatch {α : Type} (m : M α) (h : Err → M α) : M α := fun s =>
  match m s with
  | (Except.ok a, s₁) => (Except.ok a, s₁)
  | (Except.error e, s₁) => h e s₁

/-- Lift a synchronously-thrown result (e.g. `jwt.verify`). -/
def M.ofExc {α : Type} (x : Except Err α) : M α := fun s => (x, s)

def M.getState : M RedisState := fun s => (Except.ok s, s)

/-- `uuidv4()`: draws a fresh identifier from the uuid source. -/
def uuidv4 (n : Nat) : String := "uuid-" ++ toString n

def M.genUuid : M String := fun s =>
  (Except.ok (uuidv4 s.uuidCounter), { s with uuidCounter := s.uuidCounter + 1 })

/-- Attempt one store operation: consumes the failure budget, records the
event, and throws `storeUnavailable` (setting `storeFailed`) when the
budget is exhausted. -/
def stepOp (e : StoreEvent) : M Unit := fun s =>
  match s.failAfter with
  | some 0 =>
      (Except.error Err.storeUnavailable,
        { s with storeFailed := true, trace := s.trace ++ [e] })
  | some (n + 1) =>
      (Except.ok (), { s with failAfter := some n, trace := s.trace ++ [e] })
  | none => (Except.ok (), { s with trace := s.trace ++ [e] })

def modifyData (f : RedisData → RedisData) : M Unit := fun s =>
  (Except.ok (), { s with data := f s.data })

def readData : M RedisData := fun s => (Except.ok s.data, s)

/-! ## Redis primitives as used by the service -/

def redisGetRefresh (t : Token) : M (Option RefreshTokenData) := do
  stepOp (StoreEvent.get (StoreKey.refreshTok t))
  let d ← readData
  pure ((alGet t d.refreshTokens).map Prod.fst)

def redisSetExRefresh (t : Token) (ttl : Nat) (v : RefreshTokenData) : M Unit := do
  stepOp (StoreEvent.setEx (StoreKey.refreshTok t) ttl)
  modifyData fun d => { d with refreshTokens := alSet t (v, ttl) d.refreshTokens }

def redisDelRefresh (t : Token) : M Unit := do
  stepOp (StoreEvent.del (StoreKey.refreshTok t))
  modifyData fun d => { d with refreshTokens := alDel t d.refreshTokens }

def redisGetFamily (f : String) : M (Option Token) := do
  stepOp (StoreEvent.get (StoreKey.tokenFam f))
  let d ← readData
  pure ((alGet f d.tokenFamilies).map Prod.fst)

def redisSetExFamily (f : String) (ttl : Nat) (t : Token) : M Unit := do
  stepOp (StoreEvent.setEx (StoreKey.tokenFam f) ttl)
  modifyData fun d => { d with tokenFamilies := alSet f (t, ttl) d.tokenFamilies }

def redisDelFamily (f : String) : M Unit := do
  stepOp (StoreEvent.del (StoreKey.tokenFam f))
  modifyData fun d => { d with tokenFamilies := alDel f d.tokenFamilies }

def redisExistsFamily (f : String) : M Bool := do
  stepOp (StoreEvent.existsKey (StoreKey.tokenFam f))
  let d ← readData
  pure (alGet f d.tokenFamilies).isSome

/-- Effect of `SADD` on the session sets: creates the set if absent; a
Redis set never holds duplicates. -/
def sAddFun (u fam : String) (l : List (String × List String)) : List (String × List String) :=
  match alGet u l with
  | none => l ++ [(u, [fam])]
  | some ms => if fam ∈ ms then l else alSet u (ms ++ [fam]) l

/-- Effect of `SREM` on the session sets: Redis deletes a set key once its
last member is removed. -/
def sRemFun (u fam : String) (l : List (String × List String)) : List (String × List String) :=
  match alGet u l with
  | none => l
  | some ms =>
      let ms' := ms.filter (fun x => x ≠ fam)
      if ms' = [] then alDel u l else alSet u ms' l

def redisSAddSession (u : String) (fam : String) : M Unit := do
  stepOp (StoreEvent.sAdd (StoreKey.userSess u) fam)
  modifyData fun d => { d with userSessions := sAddFun u fam d.userSessions }

def redisSRemSession (u : String) (fam : String) : M Unit := do
  stepOp (StoreEvent.sRem (StoreKey.userSess u) fam)
  modifyData fun d => { d with userSessions := sRemFun u fam d.userSessions }

/-- `SMEMBERS` (empty for a missing key). -/
def redisSMembersSession (u : String) : M (List String) := do
  stepOp (StoreEvent.sMembers (StoreKey.userSess u))
  let d ← readData
  pure ((alGet u d.userSessions).getD [])

/-- `KEYS user_sessions:*`, returned with the prefix stripped. -/
def redisKeysUserSessions : M (List String) := do
  stepOp StoreEvent.keysScan
  let d ← readData
  pure (d.userSessions.map Prod.fst)

def redisDelSession (u : String) : M Unit := do
  stepOp (StoreEvent.del (StoreKey.userSess u))
  modifyData fun d => { d with userSessions := alDel u d.userSessions }

def redisSetExBlacklist (t : Token) (ttl : Nat) : M Unit := do
  stepOp (StoreEvent.setEx (StoreKey.blacklistTok t) ttl)
  modifyData fun d => { d with blacklist := alSet t ttl d.blacklist }

def redisGetBlacklist (t : Token) : M (Option Nat) := do
  stepOp (StoreEvent.get (StoreKey.blacklistTok t))
  let d ← readData
  pure (alGet t d.blacklist)

/-! ## The service operations -/

/-- JS `x || y` on the optional fingerprint strings: the empty string is
falsy. -/
def jsOrStr : Option String → Option String → Option String
  | some s, old => if s = "" then old else some s
  | none, old => old

/-- JS falsiness of the `tokenFamily` argument: `undefined` or `''`. -/
def isFalsy : Option String → Bool
  | none => true
  | some s => s = ""

/-- Template-literal interpolation `token_family:${x}` when `x` may be
`undefined` (JS renders `undefined` as the string `undefined`). -/
def familyKeyStr : Option String → String
  | none => "undefined"
  | some f => f

/-- `TokenService.generateTokenPair`. -/
def generateTokenPair (user : UserInfo) (userAgent ipAddress : Option String) :
    M (Token × Token × String) := do
  let tokenFamily ← M.genUuid
  let s ← M.getState
  let payload : TokenPayload :=
    { id := user.id, email := user.email, role := user.role,
      tokenFamily := some tokenFamily, type := none }
  let accessToken := jwtSign payload accessSecret accessExpiresIn s.nowMs
  let refreshToken :=
    jwtSign { payload with type := some "refresh" } refreshSecret refreshExpiresIn s.nowMs
  let refreshTokenData : RefreshTokenData :=
    { userId := user.id, tokenFamily := tokenFamily,
      createdAt := s.nowMs, lastUsedAt := s.nowMs,
      userAgent := userAgent, ipAddress := ipAddress }
  redisSetExRefresh refreshToken sevenDays refreshTokenData
  redisSetExFamily tokenFamily sevenDays refreshToken
  redisSAddSession user.id tokenFamily
  pure (accessToken, refreshToken, tokenFamily)

/-- `TokenService.revokeTokenFamily`.  The argument is `Option String`
because `refreshTokenRotation` passes `decoded.tokenFamily!`, which may be
`undefined`. -/
def revokeTokenFamily (tokenFamily : Option String) : M Unit :=
  if isFalsy tokenFamily then pure ()
  else do
    let famKey := familyKeyStr tokenFamily
    let refreshToken ← redisGetFamily famKey
    match refreshToken with
    | some tok => redisDelRefresh tok
    | none => pure ()
    redisDelFamily famKey
    let keys ← redisKeysUserSessions
    sRemAll keys famKey
where
  /-- The `for (const key of keys) await redis.sRem(key, tokenFamily)` loop. -/
  sRemAll : List String → String → M Unit
    | [], _ => pure ()
    | k :: rest, fam => do
        redisSRemSession k fam
        sRemAll rest fam

/-- `TokenService.refreshTokenRotation`. -/
def refreshTokenRotation (oldRefreshToken : Token) (userAgent ipAddress : Option String) :
    M (Token × Token) :=
  M.tryCatch
    (do
      let s0 ← M.getState
      let decoded ← M.ofExc (jwtVerify oldRefreshToken refreshSecret s0.nowMs)
      if decoded.type ≠ some "refresh" then M.throwE Err.invalidTokenType else pure ()
      let tokenDataStr ← redisGetRefresh oldRefreshToken
      match tokenDataStr with
      | none => do
          revokeTokenFamily decoded.tokenFamily
          M.throwE Err.securityBreach
      | some tokenData => do
          redisDelRefresh oldRefreshToken
          let payload : TokenPayload :=
            { id := decoded.id, email := decoded.email, role := decoded.role,
              tokenFamily := decoded.tokenFamily, type := none }
          let s ← M.getState
          let accessToken := jwtSign payload accessSecret accessExpiresIn s.nowMs
          let refreshToken :=
            jwtSign { payload with type := some "refresh" } refreshSecret refreshExpiresIn s.nowMs
          let newTokenData : RefreshTokenData :=
            { tokenData with
              lastUsedAt := s.nowMs,
              userAgent := jsOrStr userAgent tokenData.userAgent,
              ipAddress := jsOrStr ipAddress tokenData.ipAddress }
          redisSetExRefresh refreshToken sevenDays newTokenData
          redisSetExFamily (familyKeyStr decoded.tokenFamily) sevenDays refreshToken
          pure (accessToken, refreshToken))
    (fun e => do
      if e = Err.tokenExpiredError then redisDelRefresh oldRefreshToken else pure ()
      M.throwE e)

/-- `TokenService.blacklistAccessToken`. -/
def blacklistAccessToken (token : Token) : M Unit :=
  M.tryCatch
    (do
      let s ← M.getState
      let decoded ← M.ofExc (jwtVerify token accessSecret s.nowMs)
      let exp := decoded.exp
      let now := s.nowMs / 1000
      let ttl : Int := (exp : Int) - (now : Int)
      if ttl > 0 then redisSetExBlacklist token ttl.toNat else pure ())
    (fun _ => pure ())

/-- `TokenService.isTokenBlacklisted`. -/
def isTokenBlacklisted (token : Token) : M Bool := do
  let r ← redisGetBlacklist token
  pure (r ≠ none)

/-- `TokenService.revokeAllUserTokens`. -/
def revokeAllUserTokens (userId : String) : M Unit := do
  let tokenFamilies ← redisSMembersSession userId
  revokeEach tokenFamilies
  redisDelSession userId
where
  revokeEach : List String → M Unit
    | [] => pure ()
    | f :: rest => do
        revokeTokenFamily (some f)
        revokeEach rest

/-- One step of the `getUserSessions` loop body: resolve a family to its
session info via Token Family Pointer → Refresh Token Record. -/
def resolveSession (d : RedisData) (family : String) : Option SessionInfo :=
  match alGet family d.tokenFamilies with
  | none => none
  | some (tok, _) =>
      match alGet tok d.refreshTokens with
      | none => none
      | some (td, _) =>
          some { tokenFamily := family, createdAt := td.createdAt,
                 lastUsedAt := td.lastUsedAt, userAgent := td.userAgent,
                 ipAddress := td.ipAddress }

/-- The `sessions` accumulation loop of `getUserSessions`. -/
def collectSessions : List String → M (List SessionInfo)
  | [] => pure []
  | family :: rest => do
      let rt ← redisGetFamily family
      match rt with
      | none => collectSessions rest
      | some tok => do
          let td ← redisGetRefresh tok
          match td with
          | none => collectSessions rest
          | some tokenData => do
              let restSessions ← collectSessions rest
              pure ({ tokenFamily := family, createdAt := tokenData.createdAt,
                      lastUsedAt := tokenData.lastUsedAt,
                      userAgent := tokenData.userAgent,
                      ipAddress := tokenData.ipAddress } :: restSessions)

/-- `Array.prototype.sort` with comparator `(a, b) => b.lastUsedAt - a.lastUsedAt`
(stable, descending by `lastUsedAt`), modelled as insertion sort. -/
def insertDesc (a : SessionInfo) : List SessionInfo → List SessionInfo
  | [] => [a]
  | b :: l => if b.lastUsedAt < a.lastUsedAt then a :: b :: l else b :: insertDesc a l

def sortDesc : List SessionInfo → List SessionInfo
  | [] => []
  | a :: l => insertDesc a (sortDesc l)

/-- `TokenService.getUserSessions`. -/
def getUserSessions (userId : String) : M (List SessionInfo) := do
  let tokenFamilies ← redisSMembersSession userId
  let sessions ← collectSessions tokenFamilies
  pure (sortDesc sessions)

/-- The inner `for (const family of tokenFamilies)` loop of
`cleanupExpiredTokens`. -/
def cleanupFam (userKey : String) : List String → M Unit
  | [] => pure ()
  | f :: rest => do
      let ex ← redisExistsFamily f
      if ex then pure () else redisSRemSession userKey f
      cleanupFam userKey rest

/-- The outer loop of `cleanupExpiredTokens`. -/
def cleanupUsers : List String → M Unit
  | [] => pure ()
  | k :: rest => do
      let tokenFamilies ← redisSMembersSession k
      cleanupFam k tokenFamilies
      cleanupUsers rest

/-- `TokenService.cleanupExpiredTokens`. -/
def cleanupExpiredTokens : M Unit := do
  let allUserKeys ← redisKeysUserSessions
  cleanupUsers allUserKeys

/-! ## Pure observations of the store -/

/-- The members of a user's session index (empty when the key is absent). -/
def sessMembers (d : RedisData) (u : String) : List String :=
  (alGet u d.userSessions).getD []

/-- Whether a Token Family Pointer key exists. -/
def famEx (d : RedisData) (f : String) : Bool := (alGet f d.tokenFamilies).isSome

/-- One pass of removing `fam` from every session set (the net effect of
`revokeTokenFamily`'s `sRem` loop on a duplicate-free key space): each
set is filtered, and sets that become empty are dropped, as Redis deletes
a set key once its last member is removed. -/
def remFamPass (fam : String) : List (String × List String) → List (String × List String)
  | [] => []
  | (u, ms) :: rest =>
      let ms' := ms.filter (fun x => x ≠ fam)
      if ms' = [] then remFamPass fam rest else (u, ms') :: remFamPass fam rest

/-- Predicate describing which members the cleanup inner loop keeps: a
member survives iff it was not in the swept snapshot or its Token Family
Pointer exists. -/
def keepFam (d : RedisData) (fs : List String) (x : String) : Bool :=
  !(decide (x ∈ fs)) || famEx d x

/-- The descending-by-`lastUsedAt` order produced by the JS comparator. -/
abbrev sessGE (a b : SessionInfo) : Prop := b.lastUsedAt ≤ a.lastUsedAt

/-- A computation propagates store failures when, started with no failure
recorded, any execution that experienced a store failure ends in the
`storeUnavailable` error (rather than returning normally or with another
result). -/
def PropagatesStore {α : Type} (m : M α) : Prop :=
  ∀ s : RedisState, s.storeFailed = false →
    (m.run s).2.storeFailed = true → (m.run s).1 = Except.error Err.storeUnavailable

/-! ## Concrete states and tokens used to instantiate the theorems -/

/-- An empty, available store. -/
def state0 : RedisState :=
  { data := { refreshTokens := [], tokenFamilies := [], userSessions := [], blacklist := [] },
    nowMs := 5000000, uuidCounter := 0, failAfter := none, storeFailed := false, trace := [] }

/-- A live access token for instantiating theorems (expires at second
6000, while `state0.nowMs / 1000 = 5000`). -/
def tokAcc : Token :=
  { id := "u1", email := "e@x", role := "admin", tokenFamily := some "famA",
    type := none, secret := accessSecret, iat := 4000, exp := 6000 }

/-- An expired refresh-secret token whose `type` discriminator is not
`refresh` (it is `access`): a counterexample input for claim C7. -/
def tokC7 : Token :=
  { id := "u1", email := "e@x", role := "admin", tokenFamily := some "famA",
    type := some "access", secret := refreshSecret, iat := 0, exp := 1 }

/-- A live refresh token for instantiating theorems. -/
def tokRef : Token :=
  { id := "u1", email := "e@x", role := "admin", tokenFamily := some "famA",
    type := some "refresh", secret := refreshSecret, iat := 4000, exp := 1000000 }

def tdC2 : RefreshTokenData :=
  { userId := "u1", tokenFamily := "famA", createdAt := 4000000, lastUsedAt := 4500000,
    userAgent := some "ua1", ipAddress := some "ip1" }

/-- A store holding `tokRef`'s record, pointer and session-index entry. -/
def stateC2 : RedisState :=
  { data := { refreshTokens := [(tokRef, tdC2, sevenDays)],
              tokenFamilies := [("famA", tokRef, sevenDays)],
              userSessions := [("u1", ["famA"])],
              blacklist := [] },
    nowMs := 5000000, uuidCounter := 0, failAfter := none, storeFailed := false,
    trace := [] }

/-- A refresh token whose record is missing from `stateC1` (reuse case). -/
def tokB : Token :=
  { id := "u1", email := "e@x", role := "admin", tokenFamily := some "famB",
    type := some "refresh", secret := refreshSecret, iat := 4000, exp := 1000000 }

/-- A store where family `famB` has a pointer and an index entry but no
Refresh Token Record for `tokB` (it was already rotated away). -/
def stateC1 : RedisState :=
  { data := { refreshTokens := [],
              tokenFamilies := [("famB", tokB, sevenDays)],
              userSessions := [("u1", ["famB"])],
              blacklist := [] },
    nowMs := 5000000, uuidCounter := 0, failAfter := none, storeFailed := false,
    trace := [] }

/-- A store with one live family (`famA`) and one dangling index member
(`famGone`, no pointer) for exercising the Cleanup Sweeper. -/
def stateC9 : RedisState :=
  { data := { refreshTokens := [(tokRef, tdC2, sevenDays)],
              tokenFamilies := [("famA", tokRef, sevenDays)],
              userSessions := [("u1", ["famA", "famGone"])],
              blacklist := [] },
    nowMs := 5000000, uuidCounter := 0, failAfter := none, storeFailed := false,
    trace := [] }

/-- An empty store whose next operation fails (`failAfter = some 0`). -/
def stateFail : RedisState :=
  { data := { refreshTokens := [], tokenFamilies := [], userSessions := [], blacklist := [] },
    nowMs := 5000000, uuidCounter := 0, failAfter := some 0, storeFailed := false,
    trace := [] }

/-! ## Unfolding lemmas for the monad -/

theorem M.bind_app {α β : Type} (m : M α) (f : α → M β) (s : RedisState) :
    (m >>= f) s =
      match m s with
      | (Except.ok a, s₁) => f a s₁
      | (Except.error e, s₁) => (Except.error e, s₁) := rfl

theorem M.pure_app {α : Type} (a : α) (s : RedisState) :
    (pure a : M α) s = (Except.ok a, s) := rfl

theorem M.tryCatch_app {α : Type} (m : M α) (h : Err → M α) (s : RedisState) :
    (M.tryCatch m h) s =
      match m s with
      | (Except.ok a, s₁) => (Except.ok a, s₁)
      | (Except.error e, s₁) => h e s₁ := rfl

/-! ## Association-list lemmas -/

theorem alGet_alSet_self {κ ν : Type} [DecidableEq κ] (k : κ) (v : ν) (l : List (κ × ν)) :
    alGet k (alSet k v l) = some v := by
  induction l with
  | nil => simp [alGet, alSet]
  | cons p rest ih =>
      obtain ⟨k', v'⟩ := p
      by_cases h : k' = k <;> simp [alGet, alSet, h, ih]

theorem alGet_alSet_ne {κ ν : Type} [DecidableEq κ] (k k' : κ) (v : ν) (l : List (κ × ν))
    (h : k' ≠ k) : alGet k' (alSet k v l) = alGet k' l := by
  induction l with
  | nil => simp [alGet, alSet, Ne.symm h]
  | cons p rest ih =>
      obtain ⟨k₀, v₀⟩ := p
      by_cases h0 : k₀ = k
      · subst h0
        simp [alGet, alSet, Ne.symm h]
      · simp [alGet, alSet, h0, ih]

theorem alGet_alDel_self {κ ν : Type} [DecidableEq κ] (k : κ) (l : List (κ × ν)) :
    alGet k (alDel k l) = none := by
  induction l with
  | nil => simp [alGet, alDel]
  | cons p rest ih =>
      obtain ⟨k', v'⟩ := p
      by_cases h : k' = k <;> simp [alGet, alDel, h, ih]

theorem alGet_alDel_ne {κ ν : Type} [DecidableEq κ] (k k' : κ) (l : List (κ × ν))
    (h : k' ≠ k) : alGet k' (alDel k l) = alGet k' l := by
  induction l with
  | nil => simp [alDel]
  | cons p rest ih =>
      obtain ⟨k₀, v₀⟩ := p
      by_cases h0 : k₀ = k
      · subst h0
        simp [alGet, alDel, Ne.symm h, ih]
      · simp [alGet, alDel, h0, ih]

theorem alDel_alDel_self {κ ν : Type} [DecidableEq κ] (k : κ) (l : List (κ × ν)) :
    alDel k (alDel k l) = alDel k l := by
  induction l with
  | nil => simp [alDel]
  | cons p rest ih =>
      obtain ⟨k', v'⟩ := p
      by_cases h : k' = k <;> simp [alDel, h, ih]

theorem mem_sAddFun (u fam : String) (l : List (String × List String)) :
    fam ∈ (alGet u (sAddFun u fam l)).getD [] := by
  unfold sAddFun
  cases h : alGet u l with
  | none =>
      have : alGet u (l ++ [(u, [fam])]) = some [fam] := by
        induction l with
        | nil => simp [alGet]
        | cons p rest ih =>
            obtain ⟨k', v'⟩ := p
            by_cases hk : k' = u
            · subst hk
              simp [alGet] at h
            · simp [alGet, hk] at h ⊢
              exact ih h
      simp [this]
  | some ms =>
      by_cases hm : fam ∈ ms
      · simp [hm, h]
      · simp [hm, alGet_alSet_self]

/-! ## Theorems for the claims -/

/-- Claim C10: for every falsy `tokenFamily` argument — a missing
(`undefined`) claim passed through from rotation's breach path, or the
empty string — `revokeTokenFamily` returns immediately without performing
any store operation, leaving the entire store state (including the
operation trace) unchanged. -/
theorem c10_revokeTokenFamily_falsy_noop (fam : Option String) (s : RedisState)
    (h : isFalsy fam = true) :
    (revokeTokenFamily fam).run s = (Except.ok (), s) := by
  simp [revokeTokenFamily, h, M.run, M.pure_app]

theorem c10_witness :
    isFalsy (some "") = true ∧
    (revokeTokenFamily (some "")).run state0 = (Except.ok (), state0) :=
  ⟨by decide, c10_revokeTokenFamily_falsy_noop (some "") state0 (by decide)⟩

/-- Claim C3: every successful `generateTokenPair` call returns an
access/refresh pair decoding to the identical, freshly drawn `tokenFamily`
claim; afterwards the store holds the Refresh Token Record keyed by the
returned refresh token and the Token Family Pointer for that family, both
with the 7-day TTL; the family is a member of the caller's User Session
Index; and exactly three store writes were performed. -/
theorem c3_generateTokenPair_ok (user : UserInfo) (ua ip : Option String) (s : RedisState)
    (hf : s.failAfter = none) :
    ∃ access refresh fam,
      ((generateTokenPair user ua ip).run s).1 = Except.ok (access, refresh, fam) ∧
      access.tokenFamily = some fam ∧
      refresh.tokenFamily = some fam ∧
      fam = uuidv4 s.uuidCounter ∧
      alGet refresh ((generateTokenPair user ua ip).run s).2.data.refreshTokens =
        some ({ userId := user.id, tokenFamily := fam, createdAt := s.nowMs,
                lastUsedAt := s.nowMs, userAgent := ua, ipAddress := ip }, sevenDays) ∧
      alGet fam ((generateTokenPair user ua ip).run s).2.data.tokenFamilies =
        some (refresh, sevenDays) ∧
      fam ∈ sessMembers ((generateTokenPair user ua ip).run s).2.data user.id ∧
      ((generateTokenPair user ua ip).run s).2.trace = s.trace ++
        [StoreEvent.setEx (StoreKey.refreshTok refresh) sevenDays,
         StoreEvent.setEx (StoreKey.tokenFam fam) sevenDays,
         StoreEvent.sAdd (StoreKey.userSess user.id) fam] ∧
      countWrites ((generateTokenPair user ua ip).run s).2.trace = countWrites s.trace + 3 := by
  obtain ⟨⟨rt, tf, us, bl⟩, now, uc, fa, sf, tr⟩ := s
  simp only at hf
  subst hf
  refine ⟨jwtSign ⟨user.id, user.email, user.role, some (uuidv4 uc), none⟩
            accessSecret accessExpiresIn now,
          jwtSign ⟨user.id, user.email, user.role, some (uuidv4 uc), some "refresh"⟩
            refreshSecret refreshExpiresIn now,
          uuidv4 uc, ?_, ?_, ?_, rfl, ?_, ?_, ?_, ?_, ?_⟩ <;>
    simp [generateTokenPair, M.run, M.bind_app, M.pure_app, M.genUuid, M.getState,
      redisSetExRefresh, redisSetExFamily, redisSAddSession, stepOp, modifyData, readData,
      jwtSign, sessMembers, alGet_alSet_self, alGet_alSet_ne, mem_sAddFun,
      countWrites, StoreEvent.isWrite]

theorem c3_witness :
    state0.failAfter = none ∧
    ∃ access refresh fam,
      ((generateTokenPair ⟨"u1", "e@x", "admin"⟩ none none).run state0).1 =
        Except.ok (access, refresh, fam) ∧
      access.tokenFamily = some fam ∧
      refresh.tokenFamily = some fam ∧
      fam = uuidv4 state0.uuidCounter ∧
      alGet refresh ((generateTokenPair ⟨"u1", "e@x", "admin"⟩ none none).run state0).2.data.refreshTokens =
        some ({ userId := "u1", tokenFamily := fam, createdAt := state0.nowMs,
                lastUsedAt := state0.nowMs, userAgent := none, ipAddress := none }, sevenDays) ∧
      alGet fam ((generateTokenPair ⟨"u1", "e@x", "admin"⟩ none none).run state0).2.data.tokenFamilies =
        some (refresh, sevenDays) ∧
      fam ∈ sessMembers ((generateTokenPair ⟨"u1", "e@x", "admin"⟩ none none).run state0).2.data "u1" ∧
      ((generateTokenPair ⟨"u1", "e@x", "admin"⟩ none none).run state0).2.trace = state0.trace ++
        [StoreEvent.setEx (StoreKey.refreshTok refresh) sevenDays,
         StoreEvent.setEx (StoreKey.tokenFam fam) sevenDays,
         StoreEvent.sAdd (StoreKey.userSess "u1") fam] ∧
      countWrites ((generateTokenPair ⟨"u1", "e@x", "admin"⟩ none none).run state0).2.trace =
        countWrites state0.trace + 3 :=
  ⟨rfl, c3_generateTokenPair_ok ⟨"u1", "e@x", "admin"⟩ none none state0 rfl⟩

/-- Claim C6: `blacklistAccessToken` writes a Blacklist Entry if and only
if the presented token verifies (access secret, not yet expired) and its
residual lifetime `exp − now` is strictly positive, and the entry's TTL is
exactly that residual lifetime; otherwise (in particular for a token whose
`exp` has passed) the store is left unchanged.  The call itself never
errors. -/
theorem c6_blacklistAccessToken_residual_ttl (tok : Token) (s : RedisState)
    (hf : s.failAfter = none) :
    ((blacklistAccessToken tok).run s).1 = Except.ok () ∧
    ((blacklistAccessToken tok).run s).2.data.blacklist =
      (if tok.secret = accessSecret ∧ s.nowMs / 1000 < tok.exp ∧
          0 < (tok.exp : Int) - ((s.nowMs / 1000 : Nat) : Int)
       then alSet tok ((tok.exp : Int) - ((s.nowMs / 1000 : Nat) : Int)).toNat s.data.blacklist
       else s.data.blacklist) ∧
    (tok.secret = accessSecret ∧ s.nowMs / 1000 < tok.exp →
       0 < (tok.exp : Int) - ((s.nowMs / 1000 : Nat) : Int)) ∧
    ((blacklistAccessToken tok).run s).2.data.refreshTokens = s.data.refreshTokens ∧
    ((blacklistAccessToken tok).run s).2.data.tokenFamilies = s.data.tokenFamilies ∧
    ((blacklistAccessToken tok).run s).2.data.userSessions = s.data.userSessions := by
  obtain ⟨⟨rt, tf, us, bl⟩, now, uc, fa, sf, tr⟩ := s
  simp only at hf
  subst hf
  by_cases h1 : tok.secret = accessSecret
  · by_cases h2 : now / 1000 < tok.exp
    · have h2' : ¬ tok.exp ≤ now / 1000 := not_le.mpr h2
      have httl : (now : Int) / 1000 < (tok.exp : Int) := by omega
      simp [blacklistAccessToken, M.run, M.tryCatch_app, M.bind_app, M.pure_app,
        M.getState, M.ofExc, jwtVerify, h1, h2, h2', httl, redisSetExBlacklist,
        stepOp, modifyData]
    · have h2' : tok.exp ≤ now / 1000 := not_lt.mp h2
      simp [blacklistAccessToken, M.run, M.tryCatch_app, M.bind_app, M.pure_app,
        M.getState, M.ofExc, jwtVerify, h1, h2, h2', stepOp, modifyData]
  · simp [blacklistAccessToken, M.run, M.tryCatch_app, M.bind_app, M.pure_app,
      M.getState, M.ofExc, jwtVerify, h1, stepOp, modifyData]

theorem c6_witness :
    state0.failAfter = none ∧
    ((blacklistAccessToken tokAcc).run state0).1 = Except.ok () ∧
    ((blacklistAccessToken tokAcc).run state0).2.data.blacklist =
      (if tokAcc.secret = accessSecret ∧ state0.nowMs / 1000 < tokAcc.exp ∧
          0 < (tokAcc.exp : Int) - ((state0.nowMs / 1000 : Nat) : Int)
       then alSet tokAcc ((tokAcc.exp : Int) - ((state0.nowMs / 1000 : Nat) : Int)).toNat
              state0.data.blacklist
       else state0.data.blacklist) ∧
    (tokAcc.secret = accessSecret ∧ state0.nowMs / 1000 < tokAcc.exp →
       0 < (tokAcc.exp : Int) - ((state0.nowMs / 1000 : Nat) : Int)) ∧
    ((blacklistAccessToken tokAcc).run state0).2.data.refreshTokens = state0.data.refreshTokens ∧
    ((blacklistAccessToken tokAcc).run state0).2.data.tokenFamilies = state0.data.tokenFamilies ∧
    ((blacklistAccessToken tokAcc).run state0).2.data.userSessions = state0.data.userSessions :=
  ⟨rfl, c6_blacklistAccessToken_residual_ttl tokAcc state0 rfl⟩

/-- Claim C7 counterexample: `tokC7` has a valid signature and a type
discriminator other than `refresh`, so the claim requires `InvalidToken`;
but because it is also expired, `refreshTokenRotation` fails with
`TokenExpiredError`, which the spec taxonomy does not classify as
`InvalidToken`. -/
theorem c7_counterexample :
    tokC7.secret = refreshSecret ∧ tokC7.type ≠ some "refresh" ∧
    ((refreshTokenRotation tokC7 none none).run state0).1 =
      Except.error Err.tokenExpiredError ∧
    Err.tokenExpiredError.isInvalidToken = false := by
  refine ⟨rfl, by decide, rfl, rfl⟩

/-- Claim C7 (amended): an expired presented token with a valid signature
fails with `TokenExpired` and additionally deletes the store entry keyed by
that token string; a bad signature fails with `InvalidToken`
(`JsonWebTokenError`); and a valid-signature, *non-expired* token whose
type discriminator is not `refresh` fails with `InvalidToken`
(`Invalid token type`).  The two non-expired failure paths leave the store
unchanged. -/
theorem c7_rotation_failure_modes (tok : Token) (ua ip : Option String) (s : RedisState)
    (hf : s.failAfter = none) :
    (tok.secret = refreshSecret → tok.exp ≤ s.nowMs / 1000 →
       ((refreshTokenRotation tok ua ip).run s).1 = Except.error Err.tokenExpiredError ∧
       alGet tok ((refreshTokenRotation tok ua ip).run s).2.data.refreshTokens = none) ∧
    (tok.secret ≠ refreshSecret →
       ((refreshTokenRotation tok ua ip).run s).1 = Except.error Err.jsonWebTokenError ∧
       Err.jsonWebTokenError.isInvalidToken = true ∧
       ((refreshTokenRotation tok ua ip).run s).2.data = s.data) ∧
    (tok.secret = refreshSecret → s.nowMs / 1000 < tok.exp → tok.type ≠ some "refresh" →
       ((refreshTokenRotation tok ua ip).run s).1 = Except.error Err.invalidTokenType ∧
       Err.invalidTokenType.isInvalidToken = true ∧
       ((refreshTokenRotation tok ua ip).run s).2.data = s.data) := by
  obtain ⟨⟨rt, tf, us, bl⟩, now, uc, fa, sf, tr⟩ := s
  simp only at hf
  subst hf
  refine ⟨fun h1 h2 => ?_, fun h1 => ?_, fun h1 h2 h3 => ?_⟩
  · simp [refreshTokenRotation, M.run, M.tryCatch_app, M.bind_app, M.pure_app,
      M.getState, M.ofExc, M.throwE, jwtVerify, h1, h2, redisDelRefresh, stepOp,
      modifyData, alGet_alDel_self, Err.isInvalidToken]
  · simp [refreshTokenRotation, M.run, M.tryCatch_app, M.bind_app, M.pure_app,
      M.getState, M.ofExc, M.throwE, jwtVerify, h1, stepOp, modifyData,
      Err.isInvalidToken]
  · have h2' : ¬ tok.exp ≤ now / 1000 := not_le.mpr h2
    simp [refreshTokenRotation, M.run, M.tryCatch_app, M.bind_app, M.pure_app,
      M.getState, M.ofExc, M.throwE, jwtVerify, h1, h2', h3, stepOp, modifyData,
      Err.isInvalidToken]

theorem c7_witness :
    state0.failAfter = none ∧ tokC7.secret = refreshSecret ∧
    tokC7.exp ≤ state0.nowMs / 1000 ∧
    ((refreshTokenRotation tokC7 none none).run state0).1 =
      Except.error Err.tokenExpiredError ∧
    alGet tokC7 ((refreshTokenRotation tokC7 none none).run state0).2.data.refreshTokens =
      none :=
  ⟨rfl, rfl, by decide,
    (c7_rotation_failure_modes tokC7 none none state0 rfl).1 rfl (by decide)⟩

/-- Claim C2: in every successful rotation the old Refresh Token Record is
deleted (trace position 2) before the replacement pair is persisted (trace
positions 3–4); the new pair carries the presented token's `tokenFamily`;
the new record keeps the old `createdAt`, sets `lastUsedAt` to now, and
replaces the fingerprint fields only when a new one was supplied (JS `||`);
and the Token Family Pointer now maps to the new refresh token. -/
theorem c2_refreshTokenRotation_success (tok : Token) (td : RefreshTokenData) (ttl0 : Nat)
    (ua ip : Option String) (s : RedisState)
    (hf : s.failAfter = none)
    (hsec : tok.secret = refreshSecret)
    (hexp : s.nowMs / 1000 < tok.exp)
    (htype : tok.type = some "refresh")
    (hrec : alGet tok s.data.refreshTokens = some (td, ttl0)) :
    ∃ access refresh,
      ((refreshTokenRotation tok ua ip).run s).1 = Except.ok (access, refresh) ∧
      access.tokenFamily = tok.tokenFamily ∧
      refresh.tokenFamily = tok.tokenFamily ∧
      ((refreshTokenRotation tok ua ip).run s).2.trace = s.trace ++
        [StoreEvent.get (StoreKey.refreshTok tok),
         StoreEvent.del (StoreKey.refreshTok tok),
         StoreEvent.setEx (StoreKey.refreshTok refresh) sevenDays,
         StoreEvent.setEx (StoreKey.tokenFam (familyKeyStr tok.tokenFamily)) sevenDays] ∧
      alGet refresh ((refreshTokenRotation tok ua ip).run s).2.data.refreshTokens =
        some ({ userId := td.userId, tokenFamily := td.tokenFamily,
                createdAt := td.createdAt, lastUsedAt := s.nowMs,
                userAgent := jsOrStr ua td.userAgent,
                ipAddress := jsOrStr ip td.ipAddress }, sevenDays) ∧
      (refresh ≠ tok →
        alGet tok ((refreshTokenRotation tok ua ip).run s).2.data.refreshTokens = none) ∧
      alGet (familyKeyStr tok.tokenFamily)
          ((refreshTokenRotation tok ua ip).run s).2.data.tokenFamilies =
        some (refresh, sevenDays) := by
  obtain ⟨⟨rt, tf, us, bl⟩, now, uc, fa, sf, tr⟩ := s
  simp only at hf hexp hrec
  subst hf
  obtain ⟨tuid, tfam, tcr, tlu, tug, tip⟩ := td
  have hexp' : ¬ tok.exp ≤ now / 1000 := not_le.mpr hexp
  have hrun : (refreshTokenRotation tok ua ip).run
      ⟨⟨rt, tf, us, bl⟩, now, uc, none, sf, tr⟩ =
      (Except.ok
        (jwtSign ⟨tok.id, tok.email, tok.role, tok.tokenFamily, none⟩
           accessSecret accessExpiresIn now,
         jwtSign ⟨tok.id, tok.email, tok.role, tok.tokenFamily, some "refresh"⟩
           refreshSecret refreshExpiresIn now),
       { data :=
           { refreshTokens :=
               alSet (jwtSign ⟨tok.id, tok.email, tok.role, tok.tokenFamily, some "refresh"⟩
                        refreshSecret refreshExpiresIn now)
                 ({ userId := tuid, tokenFamily := tfam, createdAt := tcr,
                    lastUsedAt := now, userAgent := jsOrStr ua tug,
                    ipAddress := jsOrStr ip tip }, sevenDays)
                 (alDel tok rt),
             tokenFamilies :=
               alSet (familyKeyStr tok.tokenFamily)
                 (jwtSign ⟨tok.id, tok.email, tok.role, tok.tokenFamily, some "refresh"⟩
                    refreshSecret refreshExpiresIn now, sevenDays) tf,
             userSessions := us, blacklist := bl },
         nowMs := now, uuidCounter := uc, failAfter := none, storeFailed := sf,
         trace := tr ++
           [StoreEvent.get (StoreKey.refreshTok tok),
            StoreEvent.del (StoreKey.refreshTok tok),
            StoreEvent.setEx (StoreKey.refreshTok
              (jwtSign ⟨tok.id, tok.email, tok.role, tok.tokenFamily, some "refresh"⟩
                 refreshSecret refreshExpiresIn now)) sevenDays,
            StoreEvent.setEx (StoreKey.tokenFam (familyKeyStr tok.tokenFamily))
              sevenDays] }) := by
    simp [refreshTokenRotation, M.run, M.tryCatch_app, M.bind_app, M.pure_app,
      M.getState, M.ofExc, M.throwE, jwtVerify, hsec, hexp', htype, hrec,
      redisGetRefresh, redisDelRefresh, redisSetExRefresh, redisSetExFamily,
      stepOp, modifyData, readData, jwtSign]
  refine ⟨jwtSign ⟨tok.id, tok.email, tok.role, tok.tokenFamily, none⟩
            accessSecret accessExpiresIn now,
          jwtSign ⟨tok.id, tok.email, tok.role, tok.tokenFamily, some "refresh"⟩
            refreshSecret refreshExpiresIn now,
          ?_, rfl, rfl, ?_, ?_, ?_, ?_⟩
  · simp [hrun]
  · simp [hrun]
  · simp [hrun, alGet_alSet_self]
  · intro h
    simp [hrun, alGet_alSet_ne _ _ _ _ (Ne.symm h), alGet_alDel_self]
  · simp [hrun, alGet_alSet_self]

theorem c2_witness :
    (tokRef.secret = refreshSecret ∧ stateC2.failAfter = none ∧
      stateC2.nowMs / 1000 < tokRef.exp ∧ tokRef.type = some "refresh" ∧
      alGet tokRef stateC2.data.refreshTokens = some (tdC2, sevenDays)) ∧
    ∃ access refresh,
      ((refreshTokenRotation tokRef (some "ua2") none).run stateC2).1 =
        Except.ok (access, refresh) ∧
      access.tokenFamily = tokRef.tokenFamily ∧
      refresh.tokenFamily = tokRef.tokenFamily ∧
      ((refreshTokenRotation tokRef (some "ua2") none).run stateC2).2.trace =
        stateC2.trace ++
        [StoreEvent.get (StoreKey.refreshTok tokRef),
         StoreEvent.del (StoreKey.refreshTok tokRef),
         StoreEvent.setEx (StoreKey.refreshTok refresh) sevenDays,
         StoreEvent.setEx (StoreKey.tokenFam (familyKeyStr tokRef.tokenFamily)) sevenDays] ∧
      alGet refresh
          ((refreshTokenRotation tokRef (some "ua2") none).run stateC2).2.data.refreshTokens =
        some ({ userId := tdC2.userId, tokenFamily := tdC2.tokenFamily,
                createdAt := tdC2.createdAt, lastUsedAt := stateC2.nowMs,
                userAgent := jsOrStr (some "ua2") tdC2.userAgent,
                ipAddress := jsOrStr none tdC2.ipAddress }, sevenDays) ∧
      (refresh ≠ tokRef →
        alGet tokRef
            ((refreshTokenRotation tokRef (some "ua2") none).run stateC2).2.data.refreshTokens =
          none) ∧
      alGet (familyKeyStr tokRef.tokenFamily)
          ((refreshTokenRotation tokRef (some "ua2") none).run stateC2).2.data.tokenFamilies =
        some (refresh, sevenDays) :=
  ⟨⟨rfl, rfl, by decide, rfl, rfl⟩,
    c2_refreshTokenRotation_success tokRef tdC2 sevenDays (some "ua2") none stateC2
      rfl rfl (by decide) rfl rfl⟩

/-! ## Sorting lemmas for the session list -/

theorem mem_insertDesc (a x : SessionInfo) (l : List SessionInfo) :
    x ∈ insertDesc a l ↔ x = a ∨ x ∈ l := by
  induction l with
  | nil => simp [insertDesc]
  | cons b l ih =>
      by_cases h : b.lastUsedAt < a.lastUsedAt
      · simp only [insertDesc, if_pos h, List.mem_cons]
      · simp only [insertDesc, if_neg h, List.mem_cons, ih]
        tauto

theorem perm_insertDesc (a : SessionInfo) (l : List SessionInfo) :
    List.Perm (insertDesc a l) (a :: l) := by
  induction l with
  | nil => simp [insertDesc]
  | cons b l ih =>
      by_cases h : b.lastUsedAt < a.lastUsedAt
      · simp [insertDesc, h]
      · simp only [insertDesc, if_neg h]
        exact List.Perm.trans (List.Perm.cons b ih) (List.Perm.swap a b l)

theorem perm_sortDesc (l : List SessionInfo) : List.Perm (sortDesc l) l := by
  induction l with
  | nil => simp [sortDesc]
  | cons a l ih =>
      exact List.Perm.trans (perm_insertDesc a (sortDesc l)) (List.Perm.cons a ih)

theorem pairwise_insertDesc (a : SessionInfo) (l : List SessionInfo)
    (h : l.Pairwise sessGE) : (insertDesc a l).Pairwise sessGE := by
  induction l with
  | nil => simp [insertDesc]
  | cons b l ih =>
      rw [List.pairwise_cons] at h
      by_cases hc : b.lastUsedAt < a.lastUsedAt
      · simp only [insertDesc, if_pos hc]
        refine List.Pairwise.cons ?_ (List.Pairwise.cons h.1 h.2)
        intro x hx
        rcases List.mem_cons.mp hx with hx | hx
        · subst hx
          exact le_of_lt hc
        · exact le_trans (h.1 x hx) (le_of_lt hc)
      · simp only [insertDesc, if_neg hc]
        refine List.Pairwise.cons ?_ (ih h.2)
        intro x hx
        rcases (mem_insertDesc a x l).mp hx with hx | hx
        · subst hx
          exact not_lt.mp hc
        · exact h.1 x hx

theorem pairwise_sortDesc (l : List SessionInfo) : (sortDesc l).Pairwise sessGE := by
  induction l with
  | nil => simp [sortDesc]
  | cons a l ih => exact pairwise_insertDesc a (sortDesc l) ih

/-! ## Characterization of the read path (`getUserSessions`) -/

theorem collectSessions_run (fams : List String) (s : RedisState)
    (hf : s.failAfter = none) :
    ((collectSessions fams).run s).1 =
      Except.ok (fams.filterMap (resolveSession s.data)) ∧
    ((collectSessions fams).run s).2.data = s.data ∧
    ((collectSessions fams).run s).2.failAfter = none ∧
    ((collectSessions fams).run s).2.nowMs = s.nowMs ∧
    ((collectSessions fams).run s).2.uuidCounter = s.uuidCounter ∧
    ((collectSessions fams).run s).2.storeFailed = s.storeFailed := by
  induction fams generalizing s with
  | nil => simp [collectSessions, M.run, M.pure_app, List.filterMap, hf]
  | cons family rest ih =>
      obtain ⟨⟨rt, tf, us, bl⟩, now, uc, fa, sf, tr⟩ := s
      simp only at hf
      subst hf
      cases h1 : alGet family tf with
      | none =>
          have := ih ⟨⟨rt, tf, us, bl⟩, now, uc, none, sf,
            tr ++ [StoreEvent.get (StoreKey.tokenFam family)]⟩ rfl
          simpa [collectSessions, M.run, M.bind_app, M.pure_app, redisGetFamily,
            readData, stepOp, h1, resolveSession, List.filterMap_cons] using this
      | some p =>
          obtain ⟨tok, fttl⟩ := p
          cases h2 : alGet tok rt with
          | none =>
              have := ih ⟨⟨rt, tf, us, bl⟩, now, uc, none, sf,
                tr ++ [StoreEvent.get (StoreKey.tokenFam family),
                       StoreEvent.get (StoreKey.refreshTok tok)]⟩ rfl
              simpa [collectSessions, M.run, M.bind_app, M.pure_app, redisGetFamily,
                redisGetRefresh, readData, stepOp, h1, h2, resolveSession,
                List.filterMap_cons] using this
          | some q =>
              obtain ⟨td, rttl⟩ := q
              have := ih ⟨⟨rt, tf, us, bl⟩, now, uc, none, sf,
                tr ++ [StoreEvent.get (StoreKey.tokenFam family),
                       StoreEvent.get (StoreKey.refreshTok tok)]⟩ rfl
              obtain ⟨ha, hb, hc, hd, he, hg⟩ := this
              simp only [M.run] at ha hb hc hd he hg
              simp [collectSessions, M.run, M.bind_app, M.pure_app, redisGetFamily,
                redisGetRefresh, readData, stepOp, h1, h2, resolveSession]
              cases hrun : collectSessions rest
                  ⟨⟨rt, tf, us, bl⟩, now, uc, none, sf,
                   tr ++ [StoreEvent.get (StoreKey.tokenFam family),
                          StoreEvent.get (StoreKey.refreshTok tok)]⟩ with
              | mk r1 s1 =>
                  simp only [hrun] at ha hb hc hd he hg ⊢
                  subst ha
                  simp_all [M.pure_app]

/-- Claim C8: `getUserSessions` never errors; its result is (a permutation
of) the index members resolved through pointer → record with missing
entries silently skipped, and it is sorted by `lastUsedAt` descending. -/
theorem c8_getUserSessions_sorted_skip (userId : String) (s : RedisState)
    (hf : s.failAfter = none) :
    ∃ l, ((getUserSessions userId).run s).1 = Except.ok l ∧
      l.Pairwise sessGE ∧
      List.Perm l ((sessMembers s.data userId).filterMap (resolveSession s.data)) := by
  obtain ⟨⟨rt, tf, us, bl⟩, now, uc, fa, sf, tr⟩ := s
  simp only at hf
  subst hf
  have hcol := collectSessions_run ((alGet userId us).getD [])
    ⟨⟨rt, tf, us, bl⟩, now, uc, none, sf,
     tr ++ [StoreEvent.sMembers (StoreKey.userSess userId)]⟩ rfl
  obtain ⟨ha, hb, hc, hd, he, hg⟩ := hcol
  simp only [M.run] at ha
  refine ⟨sortDesc (((alGet userId us).getD []).filterMap
    (resolveSession ⟨rt, tf, us, bl⟩)), ?_, ?_, ?_⟩
  · simp only [getUserSessions, M.run, M.bind_app, M.pure_app, redisSMembersSession,
      readData, stepOp]
    cases hrun : collectSessions ((alGet userId us).getD [])
        ⟨⟨rt, tf, us, bl⟩, now, uc, none, sf,
         tr ++ [StoreEvent.sMembers (StoreKey.userSess userId)]⟩ with
    | mk r1 s1 =>
        simp only [hrun] at ha
        subst ha
        simp [M.pure_app]
  · exact pairwise_sortDesc _
  · simpa [sessMembers] using perm_sortDesc
      (((alGet userId us).getD []).filterMap (resolveSession ⟨rt, tf, us, bl⟩))

theorem c8_witness :
    stateC2.failAfter = none ∧
    ∃ l, ((getUserSessions "u1").run stateC2).1 = Except.ok l ∧
      l.Pairwise sessGE ∧
      List.Perm l ((sessMembers stateC2.data "u1").filterMap (resolveSession stateC2.data)) :=
  ⟨rfl, c8_getUserSessions_sorted_skip "u1" stateC2 rfl⟩

/-! ## Characterization of family revocation -/

theorem alGet_eq_none_of_not_mem {κ ν : Type} [DecidableEq κ] (k : κ) (l : List (κ × ν))
    (h : k ∉ l.map Prod.fst) : alGet k l = none := by
  induction l with
  | nil => simp [alGet]
  | cons p rest ih =>
      obtain ⟨k', v'⟩ := p
      simp only [List.map_cons, List.mem_cons] at h
      push_neg at h
      simp [alGet, Ne.symm h.1, ih h.2]

theorem filter_ne_idem (fam : String) (l : List String) :
    (l.filter (fun x => x ≠ fam)).filter (fun x => x ≠ fam) =
      l.filter (fun x => x ≠ fam) := by
  simp [List.filter_filter]

theorem not_mem_filter_ne (fam : String) (l : List String) :
    fam ∉ l.filter (fun x => x ≠ fam) := by
  simp

theorem sessGet_sRemFun_self (u fam : String) (l : List (String × List String)) :
    (alGet u (sRemFun u fam l)).getD [] =
      ((alGet u l).getD []).filter (fun x => x ≠ fam) := by
  cases h : alGet u l with
  | none => simp [sRemFun, h]
  | some ms =>
      simp only [sRemFun, h]
      by_cases hms : ms.filter (fun x => x ≠ fam) = []
      · rw [if_pos hms, alGet_alDel_self]
        simp only [Option.getD_some, Option.getD_none]
        exact hms.symm
      · rw [if_neg hms, alGet_alSet_self]
        simp only [Option.getD_some]

theorem alGet_sRemFun_ne (u u' fam : String) (l : List (String × List String))
    (h : u' ≠ u) : alGet u' (sRemFun u fam l) = alGet u' l := by
  cases h0 : alGet u l with
  | none => simp [sRemFun, h0]
  | some ms =>
      simp only [sRemFun, h0]
      by_cases hms : ms.filter (fun x => x ≠ fam) = []
      · rw [if_pos hms, alGet_alDel_ne _ _ _ h]
      · rw [if_neg hms, alGet_alSet_ne _ _ _ _ h]

theorem sRemSession_run (u fam : String) (s : RedisState) (hf : s.failAfter = none) :
    (redisSRemSession u fam).run s =
      (Except.ok (),
       { s with
         data := { s.data with userSessions := sRemFun u fam s.data.userSessions },
         trace := s.trace ++ [StoreEvent.sRem (StoreKey.userSess u) fam] }) := by
  obtain ⟨⟨rt, tf, us, bl⟩, now, uc, fa, sf, tr⟩ := s
  simp only at hf
  subst hf
  simp [redisSRemSession, M.run, M.bind_app, M.pure_app, stepOp, modifyData]

theorem sRemAll_run (ks : List String) (fam : String) (s : RedisState)
    (hf : s.failAfter = none) :
    ((revokeTokenFamily.sRemAll ks fam).run s).1 = Except.ok () ∧
    ((revokeTokenFamily.sRemAll ks fam).run s).2.data.refreshTokens = s.data.refreshTokens ∧
    ((revokeTokenFamily.sRemAll ks fam).run s).2.data.tokenFamilies = s.data.tokenFamilies ∧
    ((revokeTokenFamily.sRemAll ks fam).run s).2.data.blacklist = s.data.blacklist ∧
    ((revokeTokenFamily.sRemAll ks fam).run s).2.failAfter = none ∧
    ((revokeTokenFamily.sRemAll ks fam).run s).2.nowMs = s.nowMs ∧
    ((revokeTokenFamily.sRemAll ks fam).run s).2.uuidCounter = s.uuidCounter ∧
    ((revokeTokenFamily.sRemAll ks fam).run s).2.storeFailed = s.storeFailed ∧
    (∀ u, sessMembers ((revokeTokenFamily.sRemAll ks fam).run s).2.data u =
       if u ∈ ks then (sessMembers s.data u).filter (fun x => x ≠ fam)
       else sessMembers s.data u) := by
  induction ks generalizing s with
  | nil =>
      simp [revokeTokenFamily.sRemAll, M.run, M.pure_app, hf]
  | cons k rest ih =>
      have hstep := sRemSession_run k fam s hf
      have hrw : (revokeTokenFamily.sRemAll (k :: rest) fam).run s =
          (revokeTokenFamily.sRemAll rest fam).run
            { s with
              data := { s.data with userSessions := sRemFun k fam s.data.userSessions },
              trace := s.trace ++ [StoreEvent.sRem (StoreKey.userSess k) fam] } := by
        simp only [revokeTokenFamily.sRemAll, M.run] at hstep ⊢
        simp only [M.bind_app, hstep]
      have := ih { s with
          data := { s.data with userSessions := sRemFun k fam s.data.userSessions },
          trace := s.trace ++ [StoreEvent.sRem (StoreKey.userSess k) fam] }
        (by simp [hf])
      obtain ⟨h1, h2, h3, h4, h5, h6, h7, h8, h9⟩ := this
      rw [hrw]
      refine ⟨h1, by simpa using h2, by simpa using h3, by simpa using h4, h5,
        by simpa using h6, by simpa using h7, by simpa using h8, ?_⟩
      intro u
      have h9u := h9 u
      by_cases hk : u = k
      · subst hk
        by_cases hr : u ∈ rest
        · simp only [List.mem_cons, true_or, if_pos, hr, if_pos] at h9u ⊢
          rw [h9u]
          simp only [sessMembers]
          rw [sessGet_sRemFun_self]
          exact filter_ne_idem fam _
        · simp only [hr, if_neg, not_false_iff] at h9u
          simp only [List.mem_cons, true_or, if_pos]
          rw [h9u]
          simp only [sessMembers]
          exact sessGet_sRemFun_self u fam s.data.userSessions
      · have hmem : u ∈ k :: rest ↔ u ∈ rest := by simp [hk]
        by_cases hr : u ∈ rest
        · simp only [hr, if_pos] at h9u
          simp only [hmem, hr, if_pos]
          rw [h9u]
          simp only [sessMembers]
          rw [alGet_sRemFun_ne _ _ _ _ hk]
        · simp only [hr, if_neg, not_false_iff] at h9u
          simp only [hmem, hr, if_neg, not_false_iff]
          rw [h9u]
          simp only [sessMembers]
          rw [alGet_sRemFun_ne _ _ _ _ hk]

theorem revokeTokenFamily_run (fam : String) (hne : fam ≠ "") (s : RedisState)
    (hf : s.failAfter = none) :
    ((revokeTokenFamily (some fam)).run s).1 = Except.ok () ∧
    ((revokeTokenFamily (some fam)).run s).2.data.refreshTokens =
      (match alGet fam s.data.tokenFamilies with
       | some (t, _) => alDel t s.data.refreshTokens
       | none => s.data.refreshTokens) ∧
    ((revokeTokenFamily (some fam)).run s).2.data.tokenFamilies =
      alDel fam s.data.tokenFamilies ∧
    ((revokeTokenFamily (some fam)).run s).2.data.blacklist = s.data.blacklist ∧
    ((revokeTokenFamily (some fam)).run s).2.failAfter = none ∧
    ((revokeTokenFamily (some fam)).run s).2.nowMs = s.nowMs ∧
    ((revokeTokenFamily (some fam)).run s).2.uuidCounter = s.uuidCounter ∧
    ((revokeTokenFamily (some fam)).run s).2.storeFailed = s.storeFailed ∧
    (∀ u, fam ∉ sessMembers ((revokeTokenFamily (some fam)).run s).2.data u) := by
  obtain ⟨⟨rt, tf, us, bl⟩, now, uc, fa, sf, tr⟩ := s
  simp only at hf
  subst hf
  have hfls : isFalsy (some fam) = false := by simp [isFalsy, hne]
  cases halg : alGet fam tf with
  | none =>
      have hrw : (revokeTokenFamily (some fam)).run ⟨⟨rt, tf, us, bl⟩, now, uc, none, sf, tr⟩ =
          (revokeTokenFamily.sRemAll (us.map Prod.fst) fam).run
            ⟨⟨rt, alDel fam tf, us, bl⟩, now, uc, none, sf,
             tr ++ [StoreEvent.get (StoreKey.tokenFam fam),
                    StoreEvent.del (StoreKey.tokenFam fam), StoreEvent.keysScan]⟩ := by
        simp [revokeTokenFamily, M.run, M.bind_app, M.pure_app, hfls, familyKeyStr,
          redisGetFamily, redisDelFamily, redisKeysUserSessions, readData, stepOp,
          modifyData, halg]
      have hsr := sRemAll_run (us.map Prod.fst) fam
        ⟨⟨rt, alDel fam tf, us, bl⟩, now, uc, none, sf,
         tr ++ [StoreEvent.get (StoreKey.tokenFam fam),
                StoreEvent.del (StoreKey.tokenFam fam), StoreEvent.keysScan]⟩ rfl
      obtain ⟨h1, h2, h3, h4, h5, h6, h7, h8, h9⟩ := hsr
      rw [hrw]
      refine ⟨h1, by simpa using h2, by simpa using h3, by simpa using h4, h5,
        by simpa using h6, by simpa using h7, by simpa using h8, ?_⟩
      intro u
      have h9u := h9 u
      by_cases hm : u ∈ us.map Prod.fst
      · rw [if_pos hm] at h9u
        rw [h9u]
        exact not_mem_filter_ne fam _
      · rw [if_neg hm] at h9u
        rw [h9u]
        simp only [sessMembers]
        rw [alGet_eq_none_of_not_mem u us hm]
        simp
  | some p =>
      obtain ⟨t, fttl⟩ := p
      have hrw : (revokeTokenFamily (some fam)).run ⟨⟨rt, tf, us, bl⟩, now, uc, none, sf, tr⟩ =
          (revokeTokenFamily.sRemAll (us.map Prod.fst) fam).run
            ⟨⟨alDel t rt, alDel fam tf, us, bl⟩, now, uc, none, sf,
             tr ++ [StoreEvent.get (StoreKey.tokenFam fam),
                    StoreEvent.del (StoreKey.refreshTok t),
                    StoreEvent.del (StoreKey.tokenFam fam), StoreEvent.keysScan]⟩ := by
        simp [revokeTokenFamily, M.run, M.bind_app, M.pure_app, hfls, familyKeyStr,
          redisGetFamily, redisDelRefresh, redisDelFamily, redisKeysUserSessions,
          readData, stepOp, modifyData, halg]
      have hsr := sRemAll_run (us.map Prod.fst) fam
        ⟨⟨alDel t rt, alDel fam tf, us, bl⟩, now, uc, none, sf,
         tr ++ [StoreEvent.get (StoreKey.tokenFam fam),
                StoreEvent.del (StoreKey.refreshTok t),
                StoreEvent.del (StoreKey.tokenFam fam), StoreEvent.keysScan]⟩ rfl
      obtain ⟨h1, h2, h3, h4, h5, h6, h7, h8, h9⟩ := hsr
      rw [hrw]
      refine ⟨h1, by simpa using h2, by simpa using h3, by simpa using h4, h5,
        by simpa using h6, by simpa using h7, by simpa using h8, ?_⟩
      intro u
      have h9u := h9 u
      by_cases hm : u ∈ us.map Prod.fst
      · rw [if_pos hm] at h9u
        rw [h9u]
        exact not_mem_filter_ne fam _
      · rw [if_neg hm] at h9u
        rw [h9u]
        simp only [sessMembers]
        rw [alGet_eq_none_of_not_mem u us hm]
        simp

theorem resolveSession_tokenFamily (d : RedisData) (a : String) (si : SessionInfo)
    (h : resolveSession d a = some si) : si.tokenFamily = a := by
  unfold resolveSession at h
  cases h1 : alGet a d.tokenFamilies with
  | none => simp [h1] at h
  | some p =>
      obtain ⟨tok, fttl⟩ := p
      cases h2 : alGet tok d.refreshTokens with
      | none => simp [h1, h2] at h
      | some q =>
          obtain ⟨td, rttl⟩ := q
          simp only [h1, h2] at h
          cases h
          rfl

theorem getUserSessions_excludes (u : String) (fam : String) (s : RedisState)
    (hf : s.failAfter = none) (hmem : fam ∉ sessMembers s.data u) :
    ∃ l, ((getUserSessions u).run s).1 = Except.ok l ∧
      ∀ si ∈ l, si.tokenFamily ≠ fam := by
  obtain ⟨⟨rt, tf, us, bl⟩, now, uc, fa, sf, tr⟩ := s
  simp only at hf
  subst hf
  simp only [sessMembers] at hmem
  have hcol := collectSessions_run ((alGet u us).getD [])
    ⟨⟨rt, tf, us, bl⟩, now, uc, none, sf,
     tr ++ [StoreEvent.sMembers (StoreKey.userSess u)]⟩ rfl
  obtain ⟨ha, hb, hc, hd, he, hg⟩ := hcol
  simp only [M.run] at ha
  refine ⟨sortDesc (((alGet u us).getD []).filterMap
    (resolveSession ⟨rt, tf, us, bl⟩)), ?_, ?_⟩
  · simp only [getUserSessions, M.run, M.bind_app, M.pure_app, redisSMembersSession,
      readData, stepOp]
    cases hrun : collectSessions ((alGet u us).getD [])
        ⟨⟨rt, tf, us, bl⟩, now, uc, none, sf,
         tr ++ [StoreEvent.sMembers (StoreKey.userSess u)]⟩ with
    | mk r1 s1 =>
        simp only [hrun] at ha
        subst ha
        simp [M.pure_app]
  · intro si hsi
    have hsi' : si ∈ ((alGet u us).getD []).filterMap
        (resolveSession ⟨rt, tf, us, bl⟩) :=
      (perm_sortDesc _).mem_iff.mp hsi
    obtain ⟨a, hamem, hares⟩ := List.mem_filterMap.mp hsi'
    have := resolveSession_tokenFamily _ _ _ hares
    rw [this]
    intro hcontra
    subst hcontra
    exact hmem hamem

/-- Claim C1: a refresh token that verifies (refresh secret, type
`refresh`, unexpired) but has no Refresh Token Record in the store makes
`refreshTokenRotation` revoke the token's whole family and fail with the
security-breach error; afterwards the family is a member of no user's
session index, and `getUserSessions` (for any user) no longer returns it. -/
theorem c1_reuse_revokes_family (tok : Token) (fam : String) (ua ip : Option String)
    (s : RedisState)
    (hf : s.failAfter = none)
    (hsec : tok.secret = refreshSecret)
    (hexp : s.nowMs / 1000 < tok.exp)
    (htype : tok.type = some "refresh")
    (hfam : tok.tokenFamily = some fam)
    (hne : fam ≠ "")
    (hrec : alGet tok s.data.refreshTokens = none) :
    ((refreshTokenRotation tok ua ip).run s).1 = Except.error Err.securityBreach ∧
    (∀ u, fam ∉ sessMembers ((refreshTokenRotation tok ua ip).run s).2.data u) ∧
    (∀ u, ∃ l,
       ((getUserSessions u).run ((refreshTokenRotation tok ua ip).run s).2).1 =
         Except.ok l ∧
       ∀ si ∈ l, si.tokenFamily ≠ fam) := by
  obtain ⟨⟨rt, tf, us, bl⟩, now, uc, fa, sf, tr⟩ := s
  simp only at hf hexp hrec
  subst hf
  have hexp' : ¬ tok.exp ≤ now / 1000 := not_le.mpr hexp
  have hRV := revokeTokenFamily_run fam hne
    ⟨⟨rt, tf, us, bl⟩, now, uc, none, sf,
     tr ++ [StoreEvent.get (StoreKey.refreshTok tok)]⟩ rfl
  obtain ⟨h1, h2, h3, h4, h5, h6, h7, h8, h9⟩ := hRV
  simp only [M.run] at h1 h2 h3 h4 h5 h6 h7 h8 h9
  cases hrv : revokeTokenFamily (some fam)
      ⟨⟨rt, tf, us, bl⟩, now, uc, none, sf,
       tr ++ [StoreEvent.get (StoreKey.refreshTok tok)]⟩ with
  | mk rres s₂ =>
      simp only [hrv] at h1 h2 h3 h4 h5 h6 h7 h8 h9
      subst h1
      have hrot : (refreshTokenRotation tok ua ip).run
          ⟨⟨rt, tf, us, bl⟩, now, uc, none, sf, tr⟩ =
          (Except.error Err.securityBreach, s₂) := by
        simp [refreshTokenRotation, M.run, M.tryCatch_app, M.bind_app, M.pure_app,
          M.getState, M.ofExc, M.throwE, jwtVerify, hsec, hexp', htype, hfam,
          redisGetRefresh, readData, stepOp, hrec, hrv]
      rw [hrot]
      refine ⟨rfl, h9, ?_⟩
      intro u
      exact getUserSessions_excludes u fam s₂ h5 (h9 u)

theorem c1_witness :
    (stateC1.failAfter = none ∧ tokB.secret = refreshSecret ∧
      stateC1.nowMs / 1000 < tokB.exp ∧ tokB.type = some "refresh" ∧
      tokB.tokenFamily = some "famB" ∧
      alGet tokB stateC1.data.refreshTokens = none) ∧
    ((refreshTokenRotation tokB none none).run stateC1).1 =
      Except.error Err.securityBreach ∧
    (∀ u, "famB" ∉ sessMembers ((refreshTokenRotation tokB none none).run stateC1).2.data u) ∧
    (∀ u, ∃ l,
       ((getUserSessions u).run ((refreshTokenRotation tokB none none).run stateC1).2).1 =
         Except.ok l ∧
       ∀ si ∈ l, si.tokenFamily ≠ "famB") :=
  ⟨⟨rfl, rfl, by decide, rfl, rfl, rfl⟩,
    c1_reuse_revokes_family tokB "famB" none none stateC1 rfl rfl (by decide) rfl rfl
      (by decide) rfl⟩

/-! ## List-level characterization of the revocation loop (duplicate-free
key space, as in Redis) -/

theorem alDel_eq_self_of_not_mem {κ ν : Type} [DecidableEq κ] (k : κ) (l : List (κ × ν))
    (h : k ∉ l.map Prod.fst) : alDel k l = l := by
  induction l with
  | nil => simp [alDel]
  | cons p rest ih =>
      obtain ⟨k', v'⟩ := p
      simp only [List.map_cons, List.mem_cons] at h
      push_neg at h
      simp [alDel, Ne.symm h.1, ih h.2]

theorem alGet_append_of_none {κ ν : Type} [DecidableEq κ] (k : κ) (l₁ l₂ : List (κ × ν))
    (h : alGet k l₁ = none) : alGet k (l₁ ++ l₂) = alGet k l₂ := by
  induction l₁ with
  | nil => simp
  | cons p rest ih =>
      obtain ⟨k', v'⟩ := p
      by_cases hk : k' = k
      · simp [alGet, hk] at h
      · simp only [alGet, hk, if_neg, not_false_iff, List.cons_append] at h ⊢
        exact ih h

theorem alDel_append {κ ν : Type} [DecidableEq κ] (k : κ) (l₁ l₂ : List (κ × ν)) :
    alDel k (l₁ ++ l₂) = alDel k l₁ ++ alDel k l₂ := by
  induction l₁ with
  | nil => simp [alDel]
  | cons p rest ih =>
      obtain ⟨k', v'⟩ := p
      by_cases hk : k' = k <;> simp [alDel, hk, ih]

theorem alSet_append_of_none {κ ν : Type} [DecidableEq κ] (k : κ) (v : ν)
    (l₁ l₂ : List (κ × ν)) (h : alGet k l₁ = none) :
    alSet k v (l₁ ++ l₂) = l₁ ++ alSet k v l₂ := by
  induction l₁ with
  | nil => simp
  | cons p rest ih =>
      obtain ⟨k', v'⟩ := p
      by_cases hk : k' = k
      · simp [alGet, hk] at h
      · simp only [alGet, hk, if_neg, not_false_iff] at h
        simp [alSet, hk, ih h]

theorem sRemAll_run_eq (fam : String) (sess : List (String × List String)) :
    ∀ (pre : List (String × List String)) (s : RedisState),
      s.failAfter = none →
      s.data.userSessions = pre ++ sess →
      (∀ k ∈ sess.map Prod.fst, k ∉ pre.map Prod.fst) →
      (sess.map Prod.fst).Nodup →
      ((revokeTokenFamily.sRemAll (sess.map Prod.fst) fam).run s).1 = Except.ok () ∧
      ((revokeTokenFamily.sRemAll (sess.map Prod.fst) fam).run s).2.data.refreshTokens =
        s.data.refreshTokens ∧
      ((revokeTokenFamily.sRemAll (sess.map Prod.fst) fam).run s).2.data.tokenFamilies =
        s.data.tokenFamilies ∧
      ((revokeTokenFamily.sRemAll (sess.map Prod.fst) fam).run s).2.data.blacklist =
        s.data.blacklist ∧
      ((revokeTokenFamily.sRemAll (sess.map Prod.fst) fam).run s).2.failAfter = none ∧
      ((revokeTokenFamily.sRemAll (sess.map Prod.fst) fam).run s).2.data.userSessions =
        pre ++ remFamPass fam sess := by
  induction sess with
  | nil =>
      intro pre s hf heq hdisj hnd
      simp [revokeTokenFamily.sRemAll, M.run, M.pure_app, hf, heq, remFamPass]
  | cons p rest ih =>
      obtain ⟨u, ms⟩ := p
      intro pre s hf heq hdisj hnd
      simp only [List.map_cons, List.mem_cons, List.nodup_cons] at hdisj hnd
      have hupre : alGet u pre = none :=
        alGet_eq_none_of_not_mem u pre (hdisj u (Or.inl rfl))
      have hurest : u ∉ rest.map Prod.fst := hnd.1
      have hget : alGet u s.data.userSessions = some ms := by
        rw [heq, alGet_append_of_none u pre _ hupre]
        simp [alGet]
      have hstep := sRemSession_run u fam s hf
      have hsrf : sRemFun u fam s.data.userSessions =
          pre ++ (if ms.filter (fun x => x ≠ fam) = [] then rest
                  else (u, ms.filter (fun x => x ≠ fam)) :: rest) := by
        simp only [sRemFun, hget]
        by_cases hms : ms.filter (fun x => x ≠ fam) = []
        · rw [if_pos hms, if_pos hms, heq, alDel_append,
            alDel_eq_self_of_not_mem u pre (hdisj u (Or.inl rfl))]
          simp [alDel, alDel_eq_self_of_not_mem u rest hurest]
        · rw [if_neg hms, if_neg hms, heq, alSet_append_of_none u _ pre _ hupre]
          simp [alSet]
      by_cases hms : ms.filter (fun x => x ≠ fam) = []
      · rw [if_pos hms] at hsrf
        have := ih pre
          { s with
            data := { s.data with userSessions := sRemFun u fam s.data.userSessions },
            trace := s.trace ++ [StoreEvent.sRem (StoreKey.userSess u) fam] }
          (by simp [hf]) (by simp [hsrf])
          (fun k hk => hdisj k (Or.inr hk)) hnd.2
        obtain ⟨h1, h2, h3, h4, h5, h6⟩ := this
        have hrw : (revokeTokenFamily.sRemAll (u :: rest.map Prod.fst) fam).run s =
            (revokeTokenFamily.sRemAll (rest.map Prod.fst) fam).run
              { s with
                data := { s.data with userSessions := sRemFun u fam s.data.userSessions },
                trace := s.trace ++ [StoreEvent.sRem (StoreKey.userSess u) fam] } := by
          simp only [revokeTokenFamily.sRemAll, M.run] at hstep ⊢
          simp only [M.bind_app, hstep]
        rw [List.map_cons, hrw]
        refine ⟨h1, by simpa using h2, by simpa using h3, by simpa using h4, h5, ?_⟩
        rw [h6]
        simp only [remFamPass]
        rw [if_pos hms]
      · rw [if_neg hms] at hsrf
        have := ih (pre ++ [(u, ms.filter (fun x => x ≠ fam))])
          { s with
            data := { s.data with userSessions := sRemFun u fam s.data.userSessions },
            trace := s.trace ++ [StoreEvent.sRem (StoreKey.userSess u) fam] }
          (by simp [hf]) (by simp [hsrf])
          (by
            intro k hk
            have hk1 : k ∉ pre.map Prod.fst := hdisj k (Or.inr hk)
            have hk2 : k ≠ u := fun h => hurest (h ▸ hk)
            simp [hk1, hk2])
          hnd.2
        obtain ⟨h1, h2, h3, h4, h5, h6⟩ := this
        have hrw : (revokeTokenFamily.sRemAll (u :: rest.map Prod.fst) fam).run s =
            (revokeTokenFamily.sRemAll (rest.map Prod.fst) fam).run
              { s with
                data := { s.data with userSessions := sRemFun u fam s.data.userSessions },
                trace := s.trace ++ [StoreEvent.sRem (StoreKey.userSess u) fam] } := by
          simp only [revokeTokenFamily.sRemAll, M.run] at hstep ⊢
          simp only [M.bind_app, hstep]
        rw [List.map_cons, hrw]
        refine ⟨h1, by simpa using h2, by simpa using h3, by simpa using h4, h5, ?_⟩
        rw [h6]
        simp only [remFamPass]
        rw [if_neg hms]
        simp

theorem revokeTokenFamily_run_eq (fam : String) (hne : fam ≠ "") (s : RedisState)
    (hf : s.failAfter = none)
    (hnd : (s.data.userSessions.map Prod.fst).Nodup) :
    ((revokeTokenFamily (some fam)).run s).1 = Except.ok () ∧
    ((revokeTokenFamily (some fam)).run s).2.data.refreshTokens =
      (match alGet fam s.data.tokenFamilies with
       | some (t, _) => alDel t s.data.refreshTokens
       | none => s.data.refreshTokens) ∧
    ((revokeTokenFamily (some fam)).run s).2.data.tokenFamilies =
      alDel fam s.data.tokenFamilies ∧
    ((revokeTokenFamily (some fam)).run s).2.data.blacklist = s.data.blacklist ∧
    ((revokeTokenFamily (some fam)).run s).2.failAfter = none ∧
    ((revokeTokenFamily (some fam)).run s).2.data.userSessions =
      remFamPass fam s.data.userSessions := by
  obtain ⟨⟨rt, tf, us, bl⟩, now, uc, fa, sf, tr⟩ := s
  simp only at hf hnd
  subst hf
  have hfls : isFalsy (some fam) = false := by simp [isFalsy, hne]
  cases halg : alGet fam tf with
  | none =>
      have hrw : (revokeTokenFamily (some fam)).run ⟨⟨rt, tf, us, bl⟩, now, uc, none, sf, tr⟩ =
          (revokeTokenFamily.sRemAll (us.map Prod.fst) fam).run
            ⟨⟨rt, alDel fam tf, us, bl⟩, now, uc, none, sf,
             tr ++ [StoreEvent.get (StoreKey.tokenFam fam),
                    StoreEvent.del (StoreKey.tokenFam fam), StoreEvent.keysScan]⟩ := by
        simp [revokeTokenFamily, M.run, M.bind_app, M.pure_app, hfls, familyKeyStr,
          redisGetFamily, redisDelFamily, redisKeysUserSessions, readData, stepOp,
          modifyData, halg]
      have hsr := sRemAll_run_eq fam us []
        ⟨⟨rt, alDel fam tf, us, bl⟩, now, uc, none, sf,
         tr ++ [StoreEvent.get (StoreKey.tokenFam fam),
                StoreEvent.del (StoreKey.tokenFam fam), StoreEvent.keysScan]⟩
        rfl (by simp) (by simp) hnd
      obtain ⟨h1, h2, h3, h4, h5, h6⟩ := hsr
      rw [hrw]
      exact ⟨h1, by simpa [halg] using h2, by simpa using h3, by simpa using h4, h5,
        by simpa using h6⟩
  | some p =>
      obtain ⟨t, fttl⟩ := p
      have hrw : (revokeTokenFamily (some fam)).run ⟨⟨rt, tf, us, bl⟩, now, uc, none, sf, tr⟩ =
          (revokeTokenFamily.sRemAll (us.map Prod.fst) fam).run
            ⟨⟨alDel t rt, alDel fam tf, us, bl⟩, now, uc, none, sf,
             tr ++ [StoreEvent.get (StoreKey.tokenFam fam),
                    StoreEvent.del (StoreKey.refreshTok t),
                    StoreEvent.del (StoreKey.tokenFam fam), StoreEvent.keysScan]⟩ := by
        simp [revokeTokenFamily, M.run, M.bind_app, M.pure_app, hfls, familyKeyStr,
          redisGetFamily, redisDelRefresh, redisDelFamily, redisKeysUserSessions,
          readData, stepOp, modifyData, halg]
      have hsr := sRemAll_run_eq fam us []
        ⟨⟨alDel t rt, alDel fam tf, us, bl⟩, now, uc, none, sf,
         tr ++ [StoreEvent.get (StoreKey.tokenFam fam),
                StoreEvent.del (StoreKey.refreshTok t),
                StoreEvent.del (StoreKey.tokenFam fam), StoreEvent.keysScan]⟩
        rfl (by simp) (by simp) hnd
      obtain ⟨h1, h2, h3, h4, h5, h6⟩ := hsr
      rw [hrw]
      exact ⟨h1, by simpa [halg] using h2, by simpa using h3, by simpa using h4, h5,
        by simpa using h6⟩

theorem remFamPass_keys_sublist (fam : String) (l : List (String × List String)) :
    List.Sublist ((remFamPass fam l).map Prod.fst) (l.map Prod.fst) := by
  induction l with
  | nil => simp [remFamPass]
  | cons p rest ih =>
      obtain ⟨u, ms⟩ := p
      simp only [remFamPass]
      by_cases hms : ms.filter (fun x => x ≠ fam) = []
      · rw [if_pos hms]
        exact ih.trans (List.sublist_cons_self u _)
      · rw [if_neg hms]
        simpa using ih.cons₂ u

theorem remFamPass_idem (fam : String) (l : List (String × List String)) :
    remFamPass fam (remFamPass fam l) = remFamPass fam l := by
  induction l with
  | nil => simp [remFamPass]
  | cons p rest ih =>
      obtain ⟨u, ms⟩ := p
      simp only [remFamPass]
      by_cases hms : ms.filter (fun x => x ≠ fam) = []
      · rw [if_pos hms]
        exact ih
      · rw [if_neg hms]
        simp only [remFamPass, filter_ne_idem]
        rw [if_neg hms, ih]

/-- Claim C5: `revokeTokenFamily` is idempotent — for every `tokenFamily`
argument and every (duplicate-free, as Redis guarantees) starting store
state, the second of two consecutive calls returns without error and
leaves the store contents exactly as the first call left them. -/
theorem c5_revokeTokenFamily_idempotent (fam : Option String) (s : RedisState)
    (hf : s.failAfter = none)
    (hnd : (s.data.userSessions.map Prod.fst).Nodup) :
    ((revokeTokenFamily fam).run ((revokeTokenFamily fam).run s).2).1 = Except.ok () ∧
    ((revokeTokenFamily fam).run ((revokeTokenFamily fam).run s).2).2.data =
      ((revokeTokenFamily fam).run s).2.data := by
  by_cases hfl : isFalsy fam = true
  · have h1 : (revokeTokenFamily fam).run s = (Except.ok (), s) := by
      simp [revokeTokenFamily, hfl, M.run, M.pure_app]
    rw [h1, h1]
    exact ⟨rfl, rfl⟩
  · cases fam with
    | none => simp [isFalsy] at hfl
    | some f =>
        have hne : f ≠ "" := by
          intro h
          subst h
          simp [isFalsy] at hfl
        obtain ⟨a1, a2, a3, a4, a5, a6⟩ := revokeTokenFamily_run_eq f hne s hf hnd
        have hnd₁ : ((((revokeTokenFamily (some f)).run s).2).data.userSessions.map
            Prod.fst).Nodup := by
          rw [a6]
          exact (remFamPass_keys_sublist f s.data.userSessions).nodup hnd
        obtain ⟨b1, b2, b3, b4, b5, b6⟩ :=
          revokeTokenFamily_run_eq f hne ((revokeTokenFamily (some f)).run s).2 a5 hnd₁
        refine ⟨b1, ?_⟩
        have e1 : ((revokeTokenFamily (some f)).run
            ((revokeTokenFamily (some f)).run s).2).2.data.refreshTokens =
            ((revokeTokenFamily (some f)).run s).2.data.refreshTokens := by
          rw [b2, a3, alGet_alDel_self]
        have e2 : ((revokeTokenFamily (some f)).run
            ((revokeTokenFamily (some f)).run s).2).2.data.tokenFamilies =
            ((revokeTokenFamily (some f)).run s).2.data.tokenFamilies := by
          rw [b3, a3, alDel_alDel_self]
        have e3 : ((revokeTokenFamily (some f)).run
            ((revokeTokenFamily (some f)).run s).2).2.data.userSessions =
            ((revokeTokenFamily (some f)).run s).2.data.userSessions := by
          rw [b6, a6, remFamPass_idem]
        have e4 : ((revokeTokenFamily (some f)).run
            ((revokeTokenFamily (some f)).run s).2).2.data.blacklist =
            ((revokeTokenFamily (some f)).run s).2.data.blacklist := b4
        exact RedisData.ext e1 e2 e3 e4

theorem c5_witness :
    (stateC2.failAfter = none ∧ (stateC2.data.userSessions.map Prod.fst).Nodup) ∧
    ((revokeTokenFamily (some "famA")).run
      ((revokeTokenFamily (some "famA")).run stateC2).2).1 = Except.ok () ∧
    ((revokeTokenFamily (some "famA")).run
      ((revokeTokenFamily (some "famA")).run stateC2).2).2.data =
      ((revokeTokenFamily (some "famA")).run stateC2).2.data :=
  ⟨⟨rfl, by decide⟩,
    c5_revokeTokenFamily_idempotent (some "famA") stateC2 rfl (by decide)⟩

/-! ## Characterization of the Cleanup Sweeper -/

theorem keepFam_cons_of_ex (d : RedisData) (f : String) (rest : List String)
    (hex : famEx d f = true) :
    ∀ x, keepFam d (f :: rest) x = keepFam d rest x := by
  intro x
  by_cases hx : x = f
  · subst hx
    simp [keepFam, hex]
  · simp [keepFam, List.mem_cons, hx]

theorem keepFam_cons_of_not_ex (d : RedisData) (f : String) (rest : List String)
    (hex : famEx d f = false) :
    ∀ x, keepFam d (f :: rest) x = (decide (x ≠ f) && keepFam d rest x) := by
  intro x
  by_cases hx : x = f
  · subst hx
    simp [keepFam, hex]
  · simp [keepFam, List.mem_cons, hx]

theorem cleanupFam_run (k : String) (fs : List String) (s : RedisState)
    (hf : s.failAfter = none) :
    ((cleanupFam k fs).run s).1 = Except.ok () ∧
    ((cleanupFam k fs).run s).2.data.refreshTokens = s.data.refreshTokens ∧
    ((cleanupFam k fs).run s).2.data.tokenFamilies = s.data.tokenFamilies ∧
    ((cleanupFam k fs).run s).2.data.blacklist = s.data.blacklist ∧
    ((cleanupFam k fs).run s).2.failAfter = none ∧
    (∀ u, u ≠ k →
      alGet u ((cleanupFam k fs).run s).2.data.userSessions =
        alGet u s.data.userSessions) ∧
    sessMembers ((cleanupFam k fs).run s).2.data k =
      (sessMembers s.data k).filter (keepFam s.data fs) := by
  induction fs generalizing s with
  | nil =>
      have : ∀ l : List String, l.filter (keepFam s.data []) = l := by
        intro l
        apply List.filter_eq_self.mpr
        intro x _
        simp [keepFam]
      simp [cleanupFam, M.run, M.pure_app, hf, this]
  | cons f rest ih =>
      obtain ⟨⟨rt, tf, us, bl⟩, now, uc, fa, sf, tr⟩ := s
      simp only at hf
      subst hf
      cases hex : (alGet f tf).isSome with
      | true =>
          have hrw : (cleanupFam k (f :: rest)).run ⟨⟨rt, tf, us, bl⟩, now, uc, none, sf, tr⟩ =
              (cleanupFam k rest).run
                ⟨⟨rt, tf, us, bl⟩, now, uc, none, sf,
                 tr ++ [StoreEvent.existsKey (StoreKey.tokenFam f)]⟩ := by
            simp [cleanupFam, M.run, M.bind_app, M.pure_app, redisExistsFamily,
              readData, stepOp, hex]
          have := ih ⟨⟨rt, tf, us, bl⟩, now, uc, none, sf,
            tr ++ [StoreEvent.existsKey (StoreKey.tokenFam f)]⟩ rfl
          obtain ⟨h1, h2, h3, h4, h5, h6, h7⟩ := this
          rw [hrw]
          refine ⟨h1, by simpa using h2, by simpa using h3, by simpa using h4, h5,
            by simpa using h6, ?_⟩
          rw [h7]
          show ((alGet k us).getD []).filter (keepFam ⟨rt, tf, us, bl⟩ rest) =
            ((alGet k us).getD []).filter (keepFam ⟨rt, tf, us, bl⟩ (f :: rest))
          refine List.filter_congr ?_
          intro x _
          exact (keepFam_cons_of_ex ⟨rt, tf, us, bl⟩ f rest (by simpa [famEx] using hex) x).symm
      | false =>
          have hrw : (cleanupFam k (f :: rest)).run ⟨⟨rt, tf, us, bl⟩, now, uc, none, sf, tr⟩ =
              (cleanupFam k rest).run
                ⟨⟨rt, tf, sRemFun k f us, bl⟩, now, uc, none, sf,
                 tr ++ [StoreEvent.existsKey (StoreKey.tokenFam f),
                        StoreEvent.sRem (StoreKey.userSess k) f]⟩ := by
            simp [cleanupFam, M.run, M.bind_app, M.pure_app, redisExistsFamily,
              redisSRemSession, readData, stepOp, modifyData, hex]
          have := ih ⟨⟨rt, tf, sRemFun k f us, bl⟩, now, uc, none, sf,
            tr ++ [StoreEvent.existsKey (StoreKey.tokenFam f),
                   StoreEvent.sRem (StoreKey.userSess k) f]⟩ rfl
          obtain ⟨h1, h2, h3, h4, h5, h6, h7⟩ := this
          rw [hrw]
          refine ⟨h1, by simpa using h2, by simpa using h3, by simpa using h4, h5, ?_, ?_⟩
          · intro u hu
            have := h6 u hu
            simp only at this
            rw [this]
            exact alGet_sRemFun_ne k u f us hu
          · rw [h7]
            show ((alGet k (sRemFun k f us)).getD []).filter
                (keepFam ⟨rt, tf, sRemFun k f us, bl⟩ rest) =
              ((alGet k us).getD []).filter (keepFam ⟨rt, tf, us, bl⟩ (f :: rest))
            rw [sessGet_sRemFun_self k f us, List.filter_filter]
            refine List.filter_congr ?_
            intro x _
            rw [keepFam_cons_of_not_ex ⟨rt, tf, us, bl⟩ f rest
              (by simpa [famEx] using hex) x]
            simp [keepFam, famEx, Bool.and_comm]

theorem mem_filter_keepFam (d : RedisData) (ms : List String) (fam : String) :
    fam ∈ ms.filter (keepFam d ms) ↔ (fam ∈ ms ∧ famEx d fam = true) := by
  rw [List.mem_filter]
  constructor
  · rintro ⟨h1, h2⟩
    refine ⟨h1, ?_⟩
    simpa [keepFam, h1] using h2
  · rintro ⟨h1, h2⟩
    exact ⟨h1, by simp [keepFam, h2]⟩

theorem cleanupUsers_run (ks : List String) (s : RedisState) (hf : s.failAfter = none) :
    ((cleanupUsers ks).run s).1 = Except.ok () ∧
    ((cleanupUsers ks).run s).2.data.refreshTokens = s.data.refreshTokens ∧
    ((cleanupUsers ks).run s).2.data.tokenFamilies = s.data.tokenFamilies ∧
    ((cleanupUsers ks).run s).2.data.blacklist = s.data.blacklist ∧
    ((cleanupUsers ks).run s).2.failAfter = none ∧
    (∀ u fam, fam ∈ sessMembers ((cleanupUsers ks).run s).2.data u ↔
       (fam ∈ sessMembers s.data u ∧ (u ∈ ks → famEx s.data fam = true))) := by
  induction ks generalizing s with
  | nil => simp [cleanupUsers, M.run, M.pure_app, hf]
  | cons k rest ih =>
      obtain ⟨⟨rt, tf, us, bl⟩, now, uc, fa, sf, tr⟩ := s
      simp only at hf
      subst hf
      have hCF := cleanupFam_run k ((alGet k us).getD [])
        ⟨⟨rt, tf, us, bl⟩, now, uc, none, sf,
         tr ++ [StoreEvent.sMembers (StoreKey.userSess k)]⟩ rfl
      obtain ⟨c1, c2, c3, c4, c5, c6, c7⟩ := hCF
      simp only [M.run] at c1 c2 c3 c4 c5 c6 c7
      cases hrun : cleanupFam k ((alGet k us).getD [])
          ⟨⟨rt, tf, us, bl⟩, now, uc, none, sf,
           tr ++ [StoreEvent.sMembers (StoreKey.userSess k)]⟩ with
      | mk r2 s₂ =>
          simp only [hrun] at c1 c2 c3 c4 c5 c6 c7
          obtain ⟨d1, d2, d3, d4, d5, d6⟩ := ih s₂ c5
          have hrw : (cleanupUsers (k :: rest)).run
              ⟨⟨rt, tf, us, bl⟩, now, uc, none, sf, tr⟩ =
              (cleanupUsers rest).run s₂ := by
            simp [cleanupUsers, M.run, M.bind_app, M.pure_app, redisSMembersSession,
              readData, stepOp, hrun, c1]
          rw [hrw]
          refine ⟨d1, by rw [d2]; exact c2, by rw [d3]; exact c3,
            by rw [d4]; exact c4, d5, ?_⟩
          intro u fam
          have hfe : famEx s₂.data fam = famEx (⟨rt, tf, us, bl⟩ : RedisData) fam := by
            simp only [famEx, c3]
          rw [d6 u fam, hfe]
          by_cases hu : u = k
          · subst hu
            have hm2 : fam ∈ sessMembers s₂.data u ↔
                (fam ∈ sessMembers (⟨rt, tf, us, bl⟩ : RedisData) u ∧
                 famEx (⟨rt, tf, us, bl⟩ : RedisData) fam = true) := by
              rw [c7]
              exact mem_filter_keepFam _ _ fam
            rw [hm2]
            simp only [List.mem_cons, true_or, forall_const]
            tauto
          · have hm2 : fam ∈ sessMembers s₂.data u ↔
                fam ∈ sessMembers (⟨rt, tf, us, bl⟩ : RedisData) u := by
              simp only [sessMembers]
              rw [c6 u hu]
            rw [hm2]
            have : (u ∈ k :: rest) ↔ (u ∈ rest) := by simp [hu]
            rw [this]

/-- Claim C9: one run of the Cleanup Sweeper removes from each User
Session Index exactly those members whose Token Family Pointer key does
not exist (a member survives iff it was present and its pointer exists),
and it leaves the Refresh Token Records, Token Family Pointers and
Blacklist Entries completely unchanged. -/
theorem c9_cleanup_reconciles_index (s : RedisState) (hf : s.failAfter = none) :
    (cleanupExpiredTokens.run s).1 = Except.ok () ∧
    (cleanupExpiredTokens.run s).2.data.refreshTokens = s.data.refreshTokens ∧
    (cleanupExpiredTokens.run s).2.data.tokenFamilies = s.data.tokenFamilies ∧
    (cleanupExpiredTokens.run s).2.data.blacklist = s.data.blacklist ∧
    (∀ u fam, fam ∈ sessMembers (cleanupExpiredTokens.run s).2.data u ↔
       (fam ∈ sessMembers s.data u ∧ famEx s.data fam = true)) := by
  obtain ⟨⟨rt, tf, us, bl⟩, now, uc, fa, sf, tr⟩ := s
  simp only at hf
  subst hf
  have hCU := cleanupUsers_run (us.map Prod.fst)
    ⟨⟨rt, tf, us, bl⟩, now, uc, none, sf, tr ++ [StoreEvent.keysScan]⟩ rfl
  obtain ⟨d1, d2, d3, d4, d5, d6⟩ := hCU
  simp only [M.run] at d1 d2 d3 d4 d5 d6
  cases hrun : cleanupUsers (us.map Prod.fst)
      ⟨⟨rt, tf, us, bl⟩, now, uc, none, sf, tr ++ [StoreEvent.keysScan]⟩ with
  | mk r2 s₂ =>
      simp only [hrun] at d1 d2 d3 d4 d5 d6
      have hrw : cleanupExpiredTokens.run ⟨⟨rt, tf, us, bl⟩, now, uc, none, sf, tr⟩ =
          (r2, s₂) := by
        simp [cleanupExpiredTokens, M.run, M.bind_app, M.pure_app,
          redisKeysUserSessions, readData, stepOp, hrun]
      rw [hrw]
      refine ⟨d1, d2, d3, d4, ?_⟩
      intro u fam
      rw [d6 u fam]
      constructor
      · rintro ⟨h1, h2⟩
        refine ⟨h1, ?_⟩
        apply h2
        simp only [sessMembers] at h1
        by_cases hm : u ∈ us.map Prod.fst
        · exact hm
        · rw [alGet_eq_none_of_not_mem u us hm] at h1
          simp at h1
      · rintro ⟨h1, h2⟩
        exact ⟨h1, fun _ => h2⟩

theorem c9_witness :
    stateC9.failAfter = none ∧
    (cleanupExpiredTokens.run stateC9).1 = Except.ok () ∧
    (cleanupExpiredTokens.run stateC9).2.data.refreshTokens = stateC9.data.refreshTokens ∧
    (cleanupExpiredTokens.run stateC9).2.data.tokenFamilies = stateC9.data.tokenFamilies ∧
    (cleanupExpiredTokens.run stateC9).2.data.blacklist = stateC9.data.blacklist ∧
    (∀ u fam, fam ∈ sessMembers (cleanupExpiredTokens.run stateC9).2.data u ↔
       (fam ∈ sessMembers stateC9.data u ∧ famEx stateC9.data fam = true)) :=
  ⟨rfl, c9_cleanup_reconciles_index stateC9 rfl⟩

/-! ## Propagation of store failures -/

theorem ps_of_flag_preserved {α : Type} (m : M α)
    (h : ∀ s, (m.run s).2.storeFailed = s.storeFailed) : PropagatesStore m := by
  intro s h0 h1
  rw [h s, h0] at h1
  cases h1

theorem ps_pure {α : Type} (a : α) : PropagatesStore (pure a : M α) :=
  ps_of_flag_preserved _ (fun _ => rfl)

theorem ps_throwE {α : Type} (e : Err) : PropagatesStore (M.throwE e : M α) :=
  ps_of_flag_preserved _ (fun _ => rfl)

theorem ps_ofExc {α : Type} (x : Except Err α) : PropagatesStore (M.ofExc x) :=
  ps_of_flag_preserved _ (fun _ => rfl)

theorem ps_stepOp (e : StoreEvent) : PropagatesStore (stepOp e) := by
  intro s h0 h1
  simp only [stepOp, M.run] at h1 ⊢
  cases hfa : s.failAfter with
  | none => simp [hfa, h0] at h1
  | some n =>
      cases n with
      | zero => simp [hfa]
      | succ m => simp [hfa, h0] at h1

theorem ps_bind {α β : Type} (m : M α) (f : α → M β)
    (hm : PropagatesStore m) (hf : ∀ a, PropagatesStore (f a)) :
    PropagatesStore (m >>= f) := by
  intro s h0 h1
  rcases hr : m.run s with ⟨r1, s1⟩
  have happ : m s = (r1, s1) := hr
  cases r1 with
  | ok a =>
      have hflag : s1.storeFailed = false := by
        cases hsf : s1.storeFailed
        · rfl
        · have := hm s h0 (by rw [hr]; exact hsf)
          rw [hr] at this
          cases this
      have hgoal : (m >>= f).run s = (f a).run s1 := by
        simp only [M.run, M.bind_app, happ]
      rw [hgoal] at h1 ⊢
      exact hf a s1 hflag h1
  | error e =>
      have hgoal : (m >>= f).run s = (Except.error e, s1) := by
        simp only [M.run, M.bind_app, happ]
      rw [hgoal] at h1 ⊢
      have := hm s h0 (by rw [hr]; exact h1)
      rw [hr] at this
      simp only [Except.error.injEq] at this
      rw [this]

theorem ps_tryCatch {α : Type} (m : M α) (h : Err → M α)
    (hm : PropagatesStore m) (hh : ∀ e, PropagatesStore (h e))
    (hsu : ∀ s, ((h Err.storeUnavailable).run s).1 = Except.error Err.storeUnavailable) :
    PropagatesStore (M.tryCatch m h) := by
  intro s h0 h1
  rcases hr : m.run s with ⟨r1, s1⟩
  have happ : m s = (r1, s1) := hr
  cases r1 with
  | ok a =>
      have hgoal : (M.tryCatch m h).run s = (Except.ok a, s1) := by
        simp only [M.run, M.tryCatch_app, happ]
      rw [hgoal] at h1 ⊢
      have hflag : s1.storeFailed = false := by
        cases hsf : s1.storeFailed
        · rfl
        · have := hm s h0 (by rw [hr]; exact hsf)
          rw [hr] at this
          cases this
      rw [hflag] at h1
      cases h1
  | error e =>
      have hgoal : (M.tryCatch m h).run s = (h e).run s1 := by
        simp only [M.run, M.tryCatch_app, happ]
      rw [hgoal] at h1 ⊢
      cases hsf : s1.storeFailed with
      | true =>
          have := hm s h0 (by rw [hr]; exact hsf)
          rw [hr] at this
          simp only [Except.error.injEq] at this
          subst this
          exact hsu s1
      | false => exact hh e s1 hsf h1

theorem ps_redisGetRefresh (t : Token) : PropagatesStore (redisGetRefresh t) :=
  ps_bind _ _ (ps_stepOp _) (fun _ => ps_of_flag_preserved _ (fun _ => rfl))

theorem ps_redisSetExRefresh (t : Token) (ttl : Nat) (v : RefreshTokenData) :
    PropagatesStore (redisSetExRefresh t ttl v) :=
  ps_bind _ _ (ps_stepOp _) (fun _ => ps_of_flag_preserved _ (fun _ => rfl))

theorem ps_redisDelRefresh (t : Token) : PropagatesStore (redisDelRefresh t) :=
  ps_bind _ _ (ps_stepOp _) (fun _ => ps_of_flag_preserved _ (fun _ => rfl))

theorem ps_redisGetFamily (f : String) : PropagatesStore (redisGetFamily f) :=
  ps_bind _ _ (ps_stepOp _) (fun _ => ps_of_flag_preserved _ (fun _ => rfl))

theorem ps_redisSetExFamily (f : String) (ttl : Nat) (t : Token) :
    PropagatesStore (redisSetExFamily f ttl t) :=
  ps_bind _ _ (ps_stepOp _) (fun _ => ps_of_flag_preserved _ (fun _ => rfl))

theorem ps_redisDelFamily (f : String) : PropagatesStore (redisDelFamily f) :=
  ps_bind _ _ (ps_stepOp _) (fun _ => ps_of_flag_preserved _ (fun _ => rfl))

theorem ps_redisExistsFamily (f : String) : PropagatesStore (redisExistsFamily f) :=
  ps_bind _ _ (ps_stepOp _) (fun _ => ps_of_flag_preserved _ (fun _ => rfl))

theorem ps_redisSAddSession (u fam : String) : PropagatesStore (redisSAddSession u fam) :=
  ps_bind _ _ (ps_stepOp _) (fun _ => ps_of_flag_preserved _ (fun _ => rfl))

theorem ps_redisSRemSession (u fam : String) : PropagatesStore (redisSRemSession u fam) :=
  ps_bind _ _ (ps_stepOp _) (fun _ => ps_of_flag_preserved _ (fun _ => rfl))

theorem ps_redisSMembersSession (u : String) : PropagatesStore (redisSMembersSession u) :=
  ps_bind _ _ (ps_stepOp _) (fun _ => ps_of_flag_preserved _ (fun _ => rfl))

theorem ps_redisKeysUserSessions : PropagatesStore redisKeysUserSessions :=
  ps_bind _ _ (ps_stepOp _) (fun _ => ps_of_flag_preserved _ (fun _ => rfl))

theorem ps_redisDelSession (u : String) : PropagatesStore (redisDelSession u) :=
  ps_bind _ _ (ps_stepOp _) (fun _ => ps_of_flag_preserved _ (fun _ => rfl))

theorem ps_redisSetExBlacklist (t : Token) (ttl : Nat) :
    PropagatesStore (redisSetExBlacklist t ttl) :=
  ps_bind _ _ (ps_stepOp _) (fun _ => ps_of_flag_preserved _ (fun _ => rfl))

theorem ps_redisGetBlacklist (t : Token) : PropagatesStore (redisGetBlacklist t) :=
  ps_bind _ _ (ps_stepOp _) (fun _ => ps_of_flag_preserved _ (fun _ => rfl))

theorem ps_genUuid : PropagatesStore M.genUuid :=
  ps_of_flag_preserved _ (fun _ => rfl)

theorem ps_getState : PropagatesStore M.getState :=
  ps_of_flag_preserved _ (fun _ => rfl)

theorem ps_ite {α : Type} (c : Prop) [Decidable c] (m₁ m₂ : M α)
    (h₁ : PropagatesStore m₁) (h₂ : PropagatesStore m₂) :
    PropagatesStore (if c then m₁ else m₂) := by
  by_cases hc : c
  · rw [if_pos hc]
    exact h₁
  · rw [if_neg hc]
    exact h₂

theorem ps_generateTokenPair (user : UserInfo) (ua ip : Option String) :
    PropagatesStore (generateTokenPair user ua ip) := by
  simp only [generateTokenPair]
  refine ps_bind _ _ ps_genUuid (fun fam => ?_)
  refine ps_bind _ _ ps_getState (fun s => ?_)
  refine ps_bind _ _ (ps_redisSetExRefresh _ _ _) (fun _ => ?_)
  refine ps_bind _ _ (ps_redisSetExFamily _ _ _) (fun _ => ?_)
  exact ps_bind _ _ (ps_redisSAddSession _ _) (fun _ => ps_pure _)

theorem ps_sRemAll (ks : List String) (fam : String) :
    PropagatesStore (revokeTokenFamily.sRemAll ks fam) := by
  induction ks with
  | nil =>
      simp only [revokeTokenFamily.sRemAll]
      exact ps_pure ()
  | cons k rest ih =>
      simp only [revokeTokenFamily.sRemAll]
      exact ps_bind _ _ (ps_redisSRemSession _ _) (fun _ => ih)

theorem ps_revokeTokenFamily (fam : Option String) :
    PropagatesStore (revokeTokenFamily fam) := by
  simp only [revokeTokenFamily]
  refine ps_ite _ _ _ (ps_pure _) ?_
  refine ps_bind _ _ (ps_redisGetFamily _) (fun r => ?_)
  cases r with
  | some tok =>
      refine ps_bind _ _ (ps_redisDelRefresh tok) (fun _ => ?_)
      refine ps_bind _ _ (ps_redisDelFamily _) (fun _ => ?_)
      exact ps_bind _ _ ps_redisKeysUserSessions (fun ks => ps_sRemAll ks _)
  | none =>
      refine ps_bind _ _ (ps_pure ()) (fun _ => ?_)
      refine ps_bind _ _ (ps_redisDelFamily _) (fun _ => ?_)
      exact ps_bind _ _ ps_redisKeysUserSessions (fun ks => ps_sRemAll ks _)

theorem ps_refreshTokenRotation (tok : Token) (ua ip : Option String) :
    PropagatesStore (refreshTokenRotation tok ua ip) := by
  simp only [refreshTokenRotation]
  refine ps_tryCatch _ _ ?_ ?_ ?_
  · refine ps_bind _ _ ps_getState (fun s0 => ?_)
    refine ps_bind _ _ (ps_ofExc _) (fun decoded => ?_)
    refine ps_ite _ _ _ (ps_bind _ _ (ps_throwE _) (fun _ => ?_))
      (ps_bind _ _ (ps_pure _) (fun _ => ?_)) <;>
    · refine ps_bind _ _ (ps_redisGetRefresh _) (fun tds => ?_)
      cases tds with
      | none =>
          exact ps_bind _ _ (ps_revokeTokenFamily _) (fun _ => ps_throwE _)
      | some td =>
          refine ps_bind _ _ (ps_redisDelRefresh _) (fun _ => ?_)
          refine ps_bind _ _ ps_getState (fun s => ?_)
          refine ps_bind _ _ (ps_redisSetExRefresh _ _ _) (fun _ => ?_)
          exact ps_bind _ _ (ps_redisSetExFamily _ _ _) (fun _ => ps_pure _)
  · intro e
    refine ps_ite _ _ _ ?_ ?_
    · exact ps_bind _ _ (ps_redisDelRefresh _) (fun _ => ps_throwE _)
    · exact ps_bind _ _ (ps_pure _) (fun _ => ps_throwE _)
  · intro s
    rfl

theorem ps_isTokenBlacklisted (tok : Token) : PropagatesStore (isTokenBlacklisted tok) := by
  simp only [isTokenBlacklisted]
  exact ps_bind _ _ (ps_redisGetBlacklist _) (fun _ => ps_pure _)

theorem ps_revokeEach (fams : List String) :
    PropagatesStore (revokeAllUserTokens.revokeEach fams) := by
  induction fams with
  | nil =>
      simp only [revokeAllUserTokens.revokeEach]
      exact ps_pure ()
  | cons f rest ih =>
      simp only [revokeAllUserTokens.revokeEach]
      exact ps_bind _ _ (ps_revokeTokenFamily _) (fun _ => ih)

theorem ps_revokeAllUserTokens (userId : String) :
    PropagatesStore (revokeAllUserTokens userId) := by
  simp only [revokeAllUserTokens]
  refine ps_bind _ _ (ps_redisSMembersSession _) (fun fams => ?_)
  exact ps_bind _ _ (ps_revokeEach fams) (fun _ => ps_redisDelSession _)

theorem ps_collectSessions (fams : List String) :
    PropagatesStore (collectSessions fams) := by
  induction fams with
  | nil =>
      simp only [collectSessions]
      exact ps_pure _
  | cons f rest ih =>
      simp only [collectSessions]
      refine ps_bind _ _ (ps_redisGetFamily _) (fun r => ?_)
      cases r with
      | none => exact ih
      | some tok =>
          refine ps_bind _ _ (ps_redisGetRefresh _) (fun td => ?_)
          cases td with
          | none => exact ih
          | some d => exact ps_bind _ _ ih (fun _ => ps_pure _)

theorem ps_getUserSessions (userId : String) :
    PropagatesStore (getUserSessions userId) := by
  simp only [getUserSessions]
  refine ps_bind _ _ (ps_redisSMembersSession _) (fun fams => ?_)
  exact ps_bind _ _ (ps_collectSessions fams) (fun _ => ps_pure _)

theorem ps_cleanupFam (k : String) (fs : List String) :
    PropagatesStore (cleanupFam k fs) := by
  induction fs with
  | nil =>
      simp only [cleanupFam]
      exact ps_pure ()
  | cons f rest ih =>
      simp only [cleanupFam]
      refine ps_bind _ _ (ps_redisExistsFamily _) (fun ex => ?_)
      refine ps_ite _ _ _ ?_ ?_
      · exact ps_bind _ _ (ps_pure _) (fun _ => ih)
      · exact ps_bind _ _ (ps_redisSRemSession _ _) (fun _ => ih)

theorem ps_cleanupUsers (ks : List String) : PropagatesStore (cleanupUsers ks) := by
  induction ks with
  | nil =>
      simp only [cleanupUsers]
      exact ps_pure ()
  | cons k rest ih =>
      simp only [cleanupUsers]
      refine ps_bind _ _ (ps_redisSMembersSession _) (fun fams => ?_)
      exact ps_bind _ _ (ps_cleanupFam _ _) (fun _ => ih)

theorem ps_cleanupExpiredTokens : PropagatesStore cleanupExpiredTokens := by
  simp only [cleanupExpiredTokens]
  exact ps_bind _ _ ps_redisKeysUserSessions (fun ks => ps_cleanupUsers ks)

/-- Claim C4 counterexample: with the store down, `blacklistAccessToken`
of a live token experiences a store failure (its `setEx` throws) yet
returns normally — the catch-all written for verification failures also
swallows store errors, so the blacklisting is silently skipped. -/
theorem c4_counterexample :
    stateFail.storeFailed = false ∧
    ((blacklistAccessToken tokAcc).run stateFail).2.storeFailed = true ∧
    ((blacklistAccessToken tokAcc).run stateFail).1 = Except.ok () :=
  ⟨rfl, rfl, rfl⟩

/-- Claim C4 (amended): every operation of the subsystem except
`blacklistAccessToken` propagates store unavailability unmodified: whenever
a store operation fails during issuance, rotation, blacklist lookup,
revocation (single family or all families of a user), session listing or
cleanup, the operation fails with the store error instead of returning
normally.  (`blacklistAccessToken` is the exception: its catch-all swallows
store errors, as the counterexample shows.) -/
theorem c4_store_failure_propagation (user : UserInfo) (tok : Token)
    (ua ip : Option String) (userId : String) (fam : Option String) :
    PropagatesStore (generateTokenPair user ua ip) ∧
    PropagatesStore (refreshTokenRotation tok ua ip) ∧
    PropagatesStore (isTokenBlacklisted tok) ∧
    PropagatesStore (revokeAllUserTokens userId) ∧
    PropagatesStore (revokeTokenFamily fam) ∧
    PropagatesStore (getUserSessions userId) ∧
    PropagatesStore cleanupExpiredTokens :=
  ⟨ps_generateTokenPair user ua ip, ps_refreshTokenRotation tok ua ip,
   ps_isTokenBlacklisted tok, ps_revokeAllUserTokens userId,
   ps_revokeTokenFamily fam, ps_getUserSessions userId, ps_cleanupExpiredTokens⟩

theorem c4_witness :
    stateFail.storeFailed = false ∧
    ((generateTokenPair ⟨"u1", "e@x", "admin"⟩ none none).run stateFail).2.storeFailed =
      true ∧
    ((generateTokenPair ⟨"u1", "e@x", "admin"⟩ none none).run stateFail).1 =
      Except.error Err.storeUnavailable :=
  ⟨rfl, rfl,
    (c4_store_failure_propagation ⟨"u1", "e@x", "admin"⟩ tokAcc none none "u1" none).1
      stateFail rfl rfl⟩

end UmiTokenService
